import Mathlib

/-!
Verification of the ilib-webpack-plugin locale-data emission engine.

The definitions below are a shallow embedding of the JavaScript source
(`ilib-webpack-plugin.js`): the module-level state (`localeData`,
`localeDataEmitted`), the `emitLocaleData` aggregation pass with its four
feature categories (generic locale files, charset/charmaps, zoneinfo,
normalization forms), and the `addData` registration entry point.

JavaScript objects used as string-keyed dictionaries are modelled as
association lists that preserve insertion order (matching the iteration
order of non-numeric keys in JS objects and of JS `Set`s).  An uncaught
JavaScript exception aborting the whole pass is modelled by `Option`:
`none` means the pass threw.  `try`/`catch` blocks in the source are
modelled by handling the failing operation locally instead of
propagating `none`.
-/

namespace IlibPlugin

/-- JS `Set` insertion: append if absent, no-op (position kept) if present. -/
def insertUniq (l : List String) (x : String) : List String :=
  if l.contains x then l else l ++ [x]

/-- JS `Set` insertion for optional strings (used for the region set). -/
def insertUniqO (l : List (Option String)) (x : Option String) : List (Option String) :=
  if l.contains x then l else l ++ [x]

/-- Association-list lookup (JS `obj[key]`, `undefined` mapped to `none`). -/
def getA {α : Type} : List (String × α) → String → Option α
  | [], _ => none
  | (k, v) :: t, key => if k = key then some v else getA t key

/-- Association-list assignment (JS `obj[key] = v`): overwrite in place if the
key is present (keeping its position, as JS objects do), append otherwise. -/
def setA {α : Type} : List (String × α) → String → α → List (String × α)
  | [], key, v => [(key, v)]
  | (k, w) :: t, key, v =>
    if k = key then (k, v) :: t else (k, w) :: setA t key v

/-- The keys of an association list, in order. -/
def keysA {α : Type} (m : List (String × α)) : List String :=
  m.map Prod.fst

/-- Character replacement of `/` by `-` on a character list, mirroring the JS
`part.replace(/\x2f/g, "-")` call character by character. -/
def dashChars : List Char → List Char
  | [] => []
  | c :: r => (if c = '/' then '-' else c) :: dashChars r

/-- JS `str.replace(/\x2f/g, "-")`. -/
def slashToDash (s : String) : String := String.mk (dashChars s.data)

/-- Characters rewritten to `_` by `toIlibDataName` in the source. -/
def isIlibBadChar (c : Char) : Bool :=
  c = '.' || c = ':' || c = '(' || c = ')' || c = '/' || c = '\\' || c = '+' || c = '-'

def ilibNameChars : List Char → List Char
  | [] => []
  | c :: r => (if isIlibBadChar c then '_' else c) :: ilibNameChars r

/-- The source's `toIlibDataName`: empty for falsy, `"root"` or `"*"`, else
replace `. : ( ) / \ + -` by `_`. -/
def toIlibDataName (str : String) : String :=
  if str = "" || str = "root" || str = "*" then ""
  else String.mk (ilibNameChars str.data)

/-- Node `path.join` restricted to the shapes the plugin uses: `"."` segments
collapse away, other segments are joined with `/`. -/
def pjoin (a b : String) : String :=
  if a = "." then b else if b = "." then a else a ++ "/" ++ b

/-- A parsed locale tag, as produced by the external `Locale` parser:
`language`, optional `script`, optional `region`.  An absent component is
`none`; the parser never produces an empty-string component for a present
one, and components never contain `/`. -/
structure ILocale where
  language : String
  script : Option String
  region : Option String
deriving DecidableEq, Repr

/-- JS truthiness of an optional string component (`undefined` and `""` are
falsy). -/
def oTruthy : Option String → Bool
  | some s => s ≠ ""
  | none => false

/-- The list of locale data directories built inside `emitLocaleData` for a
generic feature (source lines 258-274 of the plugin): `"."`, the language,
then language/script and language/script/region when a script is present,
then language/region and und/region when a region is present. -/
def localeParts (l : ILocale) : List String :=
  ["." , l.language]
    ++ (if oTruthy l.script then
          [l.language ++ "/" ++ l.script.getD ""]
            ++ (if oTruthy l.region then
                  [l.language ++ "/" ++ l.script.getD "" ++ "/" ++ l.region.getD ""]
                else [])
        else [])
    ++ (if oTruthy l.region then
          [l.language ++ "/" ++ l.region.getD "", "und" ++ "/" ++ l.region.getD ""]
        else [])

/-- Partition name for a locale data directory: `"."` becomes `"root"`, and
`/` separators become `-` (source line 279-280). -/
def partName (d : String) : String :=
  if d = "." then "root" else slashToDash d

/-- Modelled from the spec: the partition chain the spec describes in section
4.1, written directly with `-`-joined partition names: `root`, language,
language-script (if script present), language-script-region (if script and
region present), language-region and und-region (if region present). -/
def specChain (l : ILocale) : List String :=
  ["root", l.language]
    ++ (if oTruthy l.script then
          [l.language ++ "-" ++ l.script.getD ""]
            ++ (if oTruthy l.region then
                  [l.language ++ "-" ++ l.script.getD "" ++ "-" ++ l.region.getD ""]
                else [])
        else [])
    ++ (if oTruthy l.region then
          [l.language ++ "-" ++ l.region.getD "", "und" ++ "-" ++ l.region.getD ""]
        else [])

/-- A string component is slash-free. -/
def noSlash (s : String) : Prop := '/' ∉ s.data

instance (s : String) : Decidable (noSlash s) :=
  inferInstanceAs (Decidable ('/' ∉ s.data))

theorem string_data_append (a b : String) : (a ++ b).data = a.data ++ b.data := rfl

theorem dashChars_append (a b : List Char) :
    dashChars (a ++ b) = dashChars a ++ dashChars b := by
  induction a with
  | nil => rfl
  | cons c r ih => simp [dashChars, ih]

theorem dashChars_id_of_noSlash (a : List Char) (h : '/' ∉ a) :
    dashChars a = a := by
  induction a with
  | nil => rfl
  | cons c r ih =>
    simp only [List.mem_cons, not_or] at h
    simp [dashChars, Ne.symm h.1, ih h.2]

theorem slashToDash_append (a b : String) :
    slashToDash (a ++ b) = slashToDash a ++ slashToDash b := by
  simp only [slashToDash, string_data_append, dashChars_append]
  rfl

theorem slashToDash_id (s : String) (h : noSlash s) : slashToDash s = s := by
  simp only [slashToDash, dashChars_id_of_noSlash s.data h]

theorem slashToDash_slash : slashToDash "/" = "-" := rfl

theorem slashToDash_comp (a b : String) (ha : noSlash a) (hb : noSlash b) :
    slashToDash (a ++ "/" ++ b) = a ++ "-" ++ b := by
  rw [slashToDash_append, slashToDash_append, slashToDash_id a ha,
    slashToDash_id b hb, slashToDash_slash]

/-- The synchronous filesystem as the plugin sees it: existence checks, file
reads and directory listings.  A `none` read or listing models
`fs.readFileSync` / `fs.readdirSync` throwing. -/
structure FSModel where
  existsSync : String → Bool
  readFileSync : String → Option String
  readdirSync : String → Option (List String)

/-- The ambient environment of one emission pass: the filesystem, the current
working directory, the external ilib library calls (likely-script inference
and the `lang2charset.json` table loaded through `require`), the JSON parses
the pass performs (`JSON.parse` of a charset fragment reduced to its
`optional` flag, and of the `zonetab` table reduced to its region map,
`none` modelling a thrown parse error), and the result of `findIlibRoot`. -/
structure Env where
  fs : FSModel
  cwd : String
  likelyScript : ILocale → Option String
  lang2charset : String → Option (List String)
  parseCharsetOptional : String → Option Bool
  parseZonetab : String → Option (List (String × List String))
  findIlibRoot : Option String

/-- Options passed to `emitLocaleData` from the webpack configuration. -/
structure EmitOptions where
  locales : List ILocale
  ilibRoot : Option String
  compilation : Option String
  tempDir : Option String
  debug : Bool

/-- The source's `calcDataRoot`: with no explicit `ilibRoot` it joins the
discovered root with `"locale"` (throwing, hence `none`, when discovery
returned `undefined`); with an explicit root it picks `data/locale` for
uncompiled mode and `locale` otherwise. -/
def calcDataRoot (env : Env) (opts : EmitOptions) : Option String :=
  match opts.ilibRoot with
  | none =>
    match env.findIlibRoot with
    | some r => some (pjoin r "locale")
    | none => none
  | some r =>
    some (pjoin r (if opts.compilation = some "uncompiled" then "data/locale" else "locale"))

def isAbsolutePath (s : String) : Bool := s.startsWith "/"

/-- The output directory: an absolute `tempDir` is used as is, a relative one
is resolved against the working directory, and a missing one defaults to
`assets`. -/
def resolveOutputDir (env : Env) (opts : EmitOptions) : String :=
  match opts.tempDir with
  | some t => if isAbsolutePath t then t else pjoin env.cwd t
  | none => pjoin env.cwd "assets"

/-- The accumulator threaded through one `emitLocaleData` pass: the required
scripts set, the per-form normalization script sets, the charset set, the
per-langspec charmap sets, the partition buckets (`outputSet`) and the
processed-files manifest set. -/
structure EmitAcc where
  scripts : List String
  normalizations : List (String × List String)
  charsets : List String
  charmaps : List (String × List String)
  outputSet : List (String × List (String × String))
  manifest : List String
deriving Repr

def initAccScripts (env : Env) (locales : List ILocale) : List String :=
  locales.foldl
    (fun s l =>
      match env.likelyScript l with
      | some sc => if sc = "" then s else insertUniq s sc
      | none => s) []

def initAcc (env : Env) (locales : List ILocale) : EmitAcc :=
  { scripts := initAccScripts env locales, normalizations := [], charsets := [],
    charmaps := [], outputSet := [], manifest := [] }

/-- JS `if (!outputSet[part]) outputSet[part] = {}`. -/
def ensureBucket (acc : EmitAcc) (p : String) : EmitAcc :=
  if (getA acc.outputSet p).isSome then acc
  else { acc with outputSet := setA acc.outputSet p [] }

def getEntry (acc : EmitAcc) (p k : String) : Option String :=
  (getA acc.outputSet p).bind (fun b => getA b k)

/-- JS `outputSet[p][k] = v` on an existing bucket (the bucket is created when
absent; call sites guard with `ensureBucket` or an existence check exactly
where the source does). -/
def setEntry (acc : EmitAcc) (p k v : String) : EmitAcc :=
  { acc with outputSet := setA acc.outputSet p (setA ((getA acc.outputSet p).getD []) k v) }

/-- JS truthiness of `outputSet[p][k]`: a present, non-empty string. -/
def entryTruthy (acc : EmitAcc) (p k : String) : Bool :=
  match getEntry acc p k with
  | some s => s ≠ ""
  | none => false

def rootBucketIsSome (acc : EmitAcc) : Bool :=
  (getA acc.outputSet "root").isSome

def addManifest (acc : EmitAcc) (f : String) : EmitAcc :=
  { acc with manifest := insertUniq acc.manifest f }

/-- Strip a literal character sequence from the front of a character list. -/
def stripLit : List Char → List Char → Option (List Char)
  | [], rest => some rest
  | _ :: _, [] => none
  | p :: ps, c :: cs => if c = p then stripLit ps cs else none

/-- Try the four normalization-form alternatives of the source's `normPattern`
regex at the head of the character list, in the regex's alternation order. -/
def tryFormAt (cs : List Char) : Option (String × List Char) :=
  match stripLit "nfc".data cs with
  | some r => some ("nfc", r)
  | none =>
    match stripLit "nfd".data cs with
    | some r => some ("nfd", r)
    | none =>
      match stripLit "nfkc".data cs with
      | some r => some ("nfkc", r)
      | none =>
        match stripLit "nfkd".data cs with
        | some r => some ("nfkd", r)
        | none => none

/-- JS `\w`: ASCII letters, digits and underscore. -/
def isWordChar (c : Char) : Bool := c.isAlphanum || c = '_'

def takeWord : List Char → List Char
  | [] => []
  | c :: r => if isWordChar c then c :: takeWord r else []

/-- The optional `(\x2f(\w+))?` group of `normPattern`: a slash followed by at
least one word character captures a script, anything else captures nothing. -/
def scriptAfter : List Char → Option String
  | '/' :: r => let w := takeWord r; if w = [] then none else some (String.mk w)
  | _ => none

def normMatchAux : List Char → Option (String × Option String)
  | [] => none
  | c :: rest =>
    match tryFormAt (c :: rest) with
    | some (form, after) => some (form, scriptAfter after)
    | none => normMatchAux rest

/-- First match of the source's `normPattern` regex
`(nfc|nfd|nfkc|nfkd)(\x2f(\w+))?` anywhere in the string, returning the form
and the optional captured script. -/
def normMatch (s : String) : Option (String × Option String) :=
  normMatchAux s.data

/-- The `charset`/`charmaps` branch of the main loop: look the locale's
language(-script) spec up in `lang2charset`, add every charset to the global
charset set, and when the feature is `charmaps` also record them in the
per-spec charmap set. -/
def langSpec (loc : ILocale) : String :=
  loc.language ++ (if oTruthy loc.script then "-" ++ loc.script.getD "" else "")

def collectCharset (env : Env) (loc : ILocale) (filename : String) (acc : EmitAcc) : EmitAcc :=
  match env.lang2charset (langSpec loc) with
  | some csList =>
    let acc := { acc with charsets := csList.foldl insertUniq acc.charsets }
    if filename = "charmaps" then
      let cur := (getA acc.charmaps (langSpec loc)).getD []
      { acc with charmaps := setA acc.charmaps (langSpec loc) (csList.foldl insertUniq cur) }
    else acc
  | none => acc

/-- The normalization branch of the main loop: record the captured script (or
`""` when the optional group did not capture) in the form's set.  The source's
`match.length > 3` test always holds for this regex, so the add always runs. -/
def collectNorm (form : String) (script : Option String) (acc : EmitAcc) : EmitAcc :=
  let cur := (getA acc.normalizations form).getD []
  { acc with normalizations := setA acc.normalizations form (insertUniq cur (script.getD "")) }

/-- One iteration of the generic branch's `parts.forEach` (source lines
276-304), including its `try`/`catch`: the bucket is ensured, then on an
existing fragment with a falsy current entry the file is read (a failing read
is caught and leaves only the ensured bucket behind) and the assignment line
and manifest entry are recorded; a missing fragment records an empty entry
and a manifest entry. -/
def genericStep (env : Env) (dataRoot filename : String) (acc : EmitAcc) (localeDir : String) : EmitAcc :=
  let p := pjoin (pjoin dataRoot localeDir) (filename ++ ".json")
  let part := partName localeDir
  let acc := ensureBucket acc part
  if env.fs.existsSync p then
    if entryTruthy acc part filename then acc
    else
      match env.fs.readFileSync p with
      | none => acc
      | some d =>
        let line := "ilib.data." ++ toIlibDataName filename ++
          (if part ≠ "root" then "_" ++ toIlibDataName part else "") ++ " = " ++ d ++ ";\n"
        addManifest (setEntry acc part filename line) (pjoin localeDir (filename ++ ".json"))
  else
    addManifest (setEntry acc part filename "") (pjoin localeDir (filename ++ ".json"))

/-- The generic branch for one (locale, feature) pair: fold `genericStep` over
the locale's parts list. -/
def processGenericFeature (env : Env) (dataRoot : String) (loc : ILocale) (filename : String)
    (acc : EmitAcc) : EmitAcc :=
  (localeParts loc).foldl (genericStep env dataRoot filename) acc

/-- JS zone-key rewriting: every `-` becomes `m` and every `+` becomes `p`. -/
def zoneKeyFix (z : String) : String :=
  String.mk (z.data.map (fun c => if c = '-' then 'm' else if c = '+' then 'p' else c))

/-- String suffix test on the underlying character lists. -/
def strEndsWith (s suffix : String) : Bool :=
  List.isPrefixOf suffix.data.reverse s.data.reverse

/-- The characters after the last `/` of a path. -/
def afterLastSlash (l : List Char) : List Char :=
  l.foldl (fun acc c => if c = '/' then [] else acc ++ [c]) []

/-- Node `path.basename(file, ".json")`: the last path component, with the
`.json` suffix removed when it is a proper suffix of that component. -/
def basenameNoJson (file : String) : String :=
  let b := afterLastSlash file.data
  if strEndsWith (String.mk b) ".json" && decide (5 < b.length) then
    String.mk (b.take (b.length - 5))
  else String.mk b

/-- One iteration of the region-zone `zoneSet.forEach` (source lines 223-236),
with its `try`/`catch`: when the zone file exists, read it (a failing read is
caught and skipped) and record the root-bucket entry and manifest entry. -/
def zoneStep (env : Env) (dataRoot : String) (acc : EmitAcc) (zone : String) : EmitAcc :=
  let p := pjoin (pjoin dataRoot "zoneinfo") (zone ++ ".json")
  if env.fs.existsSync p then
    match env.fs.readFileSync p with
    | none => acc
    | some d =>
      let line := "ilib.data.zoneinfo[\"" ++ zoneKeyFix zone ++ "\"] = " ++ d ++ ";\n"
      addManifest (setEntry acc "root" zone line) (pjoin "zoneinfo" (zone ++ ".json"))
  else acc

/-- One iteration of the generic-zone loop (source lines 245-256).  This loop
is not wrapped in a `try`/`catch`, so a failing read aborts the pass. -/
def genericZoneStep (env : Env) (dataRoot : String) (acc : EmitAcc) (file : String) : Option EmitAcc :=
  match env.fs.readFileSync (pjoin (pjoin dataRoot "zoneinfo") file) with
  | none => none
  | some d =>
    let zone := basenameNoJson file
    let line := "ilib.data.zoneinfo[\"" ++ zoneKeyFix zone ++ "\"] = " ++ d ++ ";\n"
    some (addManifest (setEntry acc "root" zone line) (pjoin "zoneinfo" file))

/-- The region set of the zoneinfo branch: the (possibly absent) regions of
all requested locales, in insertion order. -/
def zoneRegions (locales : List ILocale) : List (Option String) :=
  locales.foldl (fun rs l => insertUniqO rs l.region) []

/-- The zone set of the zoneinfo branch: union of the zonetab rows of the
requested regions, in insertion order. -/
def zonesOfRegions (zonetab : List (String × List String)) (regions : List (Option String)) :
    List String :=
  regions.foldl
    (fun zs r =>
      match r with
      | some rr =>
        match getA zonetab rr with
        | some zones => zones.foldl insertUniq zs
        | none => zs
      | none => zs) []

/-- The `zoneinfo` branch of the main loop (source lines 197-256): read and
parse the zonetab (both unguarded, so failure aborts), emit it into the root
bucket, emit every existing zone of the requested regions (each guarded), then
list the zoneinfo directory and its `Etc` subdirectory (unguarded) and emit
every generic `.json` zone file except `zonetab.json` (each read unguarded). -/
def genericZoneFiles (l1 l2 : List String) : List String :=
  (l1 ++ l2.map (fun z => "Etc/" ++ z)).filter
    (fun p => strEndsWith p ".json" && p ≠ "zonetab.json")

/-- The state of the zoneinfo branch after the zonetab and the region zones
have been emitted: root bucket ensured, zonetab entry and manifest line
recorded, then one `zoneStep` per zone of the requested regions. -/
def zoneinfoAfterRegions (env : Env) (dataRoot : String) (locales : List ILocale)
    (acc : EmitAcc) (d : String) (zonetab : List (String × List String)) : EmitAcc :=
  (zonesOfRegions zonetab (zoneRegions locales)).foldl (zoneStep env dataRoot)
    (addManifest
      (setEntry (ensureBucket acc "root") "root" "zonetab"
        ("ilib.data.zoneinfo.zonetab = " ++ d ++ ";\n"))
      "zoneinfo/zonetab.json")

def processZoneinfo (env : Env) (dataRoot : String) (locales : List ILocale) (acc : EmitAcc) :
    Option EmitAcc :=
  match env.fs.readFileSync (pjoin dataRoot "zoneinfo/zonetab.json") with
  | none => none
  | some d =>
    match env.parseZonetab d with
    | none => none
    | some zonetab =>
      match env.fs.readdirSync (pjoin dataRoot "zoneinfo") with
      | none => none
      | some l1 =>
        match env.fs.readdirSync (pjoin (pjoin dataRoot "zoneinfo") "Etc") with
        | none => none
        | some l2 =>
          (genericZoneFiles l1 l2).foldlM (genericZoneStep env dataRoot)
            (zoneinfoAfterRegions env dataRoot locales acc d zonetab)

/-- The `charsetaliases.json` step of the charset block (source lines
315-321): read (unguarded) and emit when the root entry is falsy and the file
exists. -/
def aliasStep (env : Env) (dataRoot : String) (acc : EmitAcc) : Option EmitAcc :=
  let p := pjoin dataRoot "charsetaliases.json"
  if !(entryTruthy acc "root" "charsetaliases") && env.fs.existsSync p then
    match env.fs.readFileSync p with
    | none => none
    | some d =>
      some (addManifest
        (setEntry acc "root" "charsetaliases" ("ilib.data.charsetaliases = " ++ d ++ ";\n"))
        "charsetaliases.json")
  else some acc

/-- One iteration of `charsets.forEach` (source lines 323-337): when the root
`charset_<cs>` entry is falsy and the charset file exists, read it (unguarded)
and emit it, then `JSON.parse` it (unguarded) and record the charset in the
optional set when its `optional` flag is boolean `true`. -/
def charsetStep (env : Env) (dataRoot : String) :
    EmitAcc × List String → String → Option (EmitAcc × List String) := fun st cs =>
  let a := st.1
  let p := pjoin (pjoin dataRoot "charset") (cs ++ ".json")
  let key := "charset_" ++ cs
  if !(entryTruthy a "root" key) && env.fs.existsSync p then
    match env.fs.readFileSync p with
    | none => none
    | some d =>
      let a := addManifest
        (setEntry a "root" key ("ilib.data.charset_" ++ toIlibDataName cs ++ " = " ++ d ++ ";\n"))
        (pjoin "charset" (cs ++ ".json"))
      match env.parseCharsetOptional d with
      | none => none
      | some b => some (a, if b then insertUniq st.2 cs else st.2)
  else some st

/-- One iteration of the charmap emission loop (source lines 341-350): emit
`charmaps_<cs>` when the charset is not in the optional set, the root entry is
falsy and the charmap file exists (read unguarded). -/
def charmapStep (env : Env) (dataRoot : String) (opt : List String) (a : EmitAcc) (cs : String) :
    Option EmitAcc :=
  let p := pjoin (pjoin dataRoot "charmaps") (cs ++ ".json")
  let key := "charmaps_" ++ cs
  if !(opt.contains cs) && !(entryTruthy a "root" key) && env.fs.existsSync p then
    match env.fs.readFileSync p with
    | none => none
    | some d =>
      some (addManifest
        (setEntry a "root" key ("ilib.data.charmaps_" ++ toIlibDataName cs ++ " = " ++ d ++ ";\n"))
        (pjoin "charmaps" (cs ++ ".json")))
  else some a

/-- The charset block after the main loop (source lines 309-352): only runs
when any charset was collected; ensures the root bucket, emits the alias
table, the charset fragments (collecting the optional set) and then the
charmap fragments of every collected langspec. -/
def processCharsets (env : Env) (dataRoot : String) (acc : EmitAcc) : Option EmitAcc :=
  if acc.charsets.isEmpty then some acc
  else
    match aliasStep env dataRoot (ensureBucket acc "root") with
    | none => none
    | some acc1 =>
      match acc1.charsets.foldlM (charsetStep env dataRoot) (acc1, []) with
      | none => none
      | some st =>
        st.1.charmaps.foldlM (fun a pr => pr.2.foldlM (charmapStep env dataRoot st.2) a) st.1

/-- The source's `addForm` (lines 354-369), with its `try`/`catch`: nothing
happens for a falsy script token; otherwise, when the form/script fragment
exists it is read (a failing read is caught), and the assignment into
`outputSet.root` throws a caught `TypeError` when the root bucket does not
exist, in which case neither the entry nor the manifest line is recorded. -/
def addFormStep (env : Env) (dataRoot : String) (acc : EmitAcc) (form script : String) : EmitAcc :=
  if script = "" then acc
  else
    let p := pjoin (pjoin dataRoot form) (script ++ ".json")
    if env.fs.existsSync p then
      match env.fs.readFileSync p with
      | none => acc
      | some d =>
        if rootBucketIsSome acc then
          let line := "// form " ++ form ++ " script " ++ script ++ "\nilib.extend(ilib.data.norm." ++
            form ++ ", " ++ d ++ ");\n"
          addManifest (setEntry acc "root" (form ++ "/" ++ script) line)
            (pjoin form (script ++ ".json"))
        else acc
    else acc

/-- The value of `normalizations.size` in the source: `normalizations` is a
plain JS object, not a `Map` or `Set`, so its `size` property is
`undefined`. -/
def jsObjectSizeProp : Option Nat := none

/-- One iteration of the normalization-form loop (source lines 371-383): a
form whose set holds `"all"` only emits the `all` aggregate; otherwise the
source picks the global scripts set when `normalizations.size === 0`, or the
set holds `""` and `normalizations.size === 1` (conditions on the `undefined`
`size` property of a plain object), and the form's own set otherwise, and
emits each script of the chosen set. -/
def processNormForm (env : Env) (dataRoot : String) (scripts : List String) (acc : EmitAcc)
    (form : String) (set : List String) : EmitAcc :=
  if set.contains "all" then addFormStep env dataRoot acc form "all"
  else
    let chosen :=
      if jsObjectSizeProp = some 0 ∨ (set.contains "" ∧ jsObjectSizeProp = some 1) then
        scripts
      else set
    chosen.foldl (fun a2 sc => addFormStep env dataRoot a2 form sc) acc

/-- The normalization-form loop over every collected form. -/
def processNorms (env : Env) (dataRoot : String) (acc : EmitAcc) : EmitAcc :=
  acc.normalizations.foldl (fun a pr => processNormForm env dataRoot a.scripts a pr.1 pr.2) acc

/-- The per-(locale, feature) dispatch of the main double loop (source lines
155-307), in the source's branch order: exact `charset`/`charmaps` first, then
the normalization regex, then exact `zoneinfo`, then the generic branch. -/
def featureStep (env : Env) (dataRoot : String) (locales : List ILocale) (loc : ILocale)
    (acc : EmitAcc) (filename : String) : Option EmitAcc :=
  if filename = "charset" || filename = "charmaps" then
    some (collectCharset env loc filename acc)
  else
    match normMatch filename with
    | some (form, script) => some (collectNorm form script acc)
    | none =>
      if filename = "zoneinfo" then processZoneinfo env dataRoot locales acc
      else some (processGenericFeature env dataRoot loc filename acc)

/-- The whole aggregation of one pass, up to (and including) the
normalization phase: data-root resolution, the locales × features double
loop, the charset block and the normalization block. -/
def buildOutputSet (env : Env) (opts : EmitOptions) (features : List String) : Option EmitAcc :=
  match calcDataRoot env opts with
  | none => none
  | some dataRoot =>
    match opts.locales.foldlM
        (fun a loc => features.foldlM (featureStep env dataRoot opts.locales loc) a)
        (initAcc env opts.locales) with
    | none => none
    | some acc =>
      match processCharsets env dataRoot acc with
      | none => none
      | some acc2 => some (processNorms env dataRoot acc2)

def jsonEscChars : List Char → List Char
  | [] => []
  | c :: r => (if c = '"' || c = '\\' then ['\\', c] else [c]) ++ jsonEscChars r

/-- JSON string serialization of a path string (quote and backslash escaped;
the paths the plugin handles contain no other characters JSON.stringify would
escape). -/
def jsonStr (s : String) : String :=
  "\"" ++ String.mk (jsonEscChars s.data) ++ "\""

/-- JSON.stringify of a manifest object: exactly one `files` key holding the
string array, no whitespace. -/
def manifestText (files : List String) : String :=
  "module.exports=\x7b\"files\":[" ++ String.intercalate "," (files.map jsonStr) ++ "]\x7d;\n"

/-- Serialization of one partition bucket (source lines 420-426): the
`installLocale` wrapper around the concatenation of the recorded lines, in
insertion order. -/
def bundleText (bucket : List (String × String)) : String :=
  "module.exports.installLocale = function(ilib) \x7b\n" ++
    String.join (bucket.map Prod.snd) ++ "\x7d;\n"

/-- The `sources` mapping assembled at the end of a pass (source lines
390-435): the local manifest, the remote manifest, then one bundle file per
partition bucket, keyed by absolute output path. -/
def buildSources (outputPath : String) (os : List (String × List (String × String)))
    (man : List String) : List (String × String) :=
  let s := setA [] (pjoin outputPath "localmanifest.js") (manifestText man)
  let s := setA s (pjoin outputPath "remotemanifest.js")
    (manifestText (os.map (fun pb => pb.1 ++ ".js")))
  os.foldl (fun s2 pb => setA s2 (pjoin outputPath (pb.1 ++ ".js")) (bundleText pb.2)) s

/-- One uncached emission pass (`emitLocaleData` without its cache check):
`none` models an exception aborting the pass. -/
def coreEmit (env : Env) (opts : EmitOptions) (features : List String) :
    Option (List (String × String)) :=
  (buildOutputSet env opts features).map
    (fun acc => buildSources (pjoin (resolveOutputDir env opts) "locales") acc.outputSet acc.manifest)

/-- The module-level mutable state of the plugin: the `localeData` feature set
and the `localeDataEmitted` cache. -/
structure PluginState where
  localeData : List String
  localeDataEmitted : Option (List (String × String))
deriving Repr

/-- The source's `emitLocaleData` (lines 125-441): return the cache when set,
otherwise run the pass and cache a successful result (a thrown pass leaves the
cache untouched). -/
def emitLocaleData (env : Env) (opts : EmitOptions) (st : PluginState) :
    Option (List (String × String)) × PluginState :=
  match st.localeDataEmitted with
  | some s => (some s, st)
  | none =>
    match coreEmit env opts st.localeData with
    | some s => (some s, { st with localeDataEmitted := some s })
    | none => (none, st)

/-- The source's `IlibDataPlugin.prototype.addData` (lines 513-519): clear the
cache when the name is new, then add the name to the set. -/
def addData (st : PluginState) (d : String) : PluginState :=
  { localeData := insertUniq st.localeData d,
    localeDataEmitted := if st.localeData.contains d then st.localeDataEmitted else none }

/-! Association-list and set lemmas. -/

theorem getA_setA_self {α : Type} (m : List (String × α)) (k : String) (v : α) :
    getA (setA m k v) k = some v := by
  induction m with
  | nil => simp [setA, getA]
  | cons hd t ih =>
    by_cases h : hd.1 = k
    · simp [setA, getA, h]
    · simp [setA, getA, h, ih]

theorem getA_setA_ne {α : Type} (m : List (String × α)) (k k' : String) (v : α)
    (h : k' ≠ k) : getA (setA m k v) k' = getA m k' := by
  induction m with
  | nil => simp [setA, getA, Ne.symm h]
  | cons hd t ih =>
    obtain ⟨k0, v0⟩ := hd
    by_cases hk : k0 = k
    · subst hk
      simp [setA, getA, Ne.symm h]
    · by_cases hk' : k0 = k'
      · simp [setA, getA, hk, hk', h]
      · simp [setA, getA, hk, hk', ih]

theorem getA_mem {α : Type} (m : List (String × α)) (k : String) (v : α)
    (h : getA m k = some v) : (k, v) ∈ m := by
  induction m with
  | nil => simp [getA] at h
  | cons hd t ih =>
    obtain ⟨k0, v0⟩ := hd
    by_cases hk : k0 = k
    · simp only [getA, if_pos hk] at h
      injection h with h
      subst hk
      subst h
      exact List.mem_cons_self _ _
    · simp only [getA, if_neg hk] at h
      exact List.mem_cons_of_mem _ (ih h)

theorem mem_setA {α : Type} (m : List (String × α)) (k : String) (v : α) (x : String × α)
    (h : x ∈ setA m k v) : x ∈ m ∨ x = (k, v) := by
  induction m with
  | nil => simp [setA] at h; simp [h]
  | cons hd t ih =>
    by_cases hk : hd.1 = k
    · simp only [setA, if_pos hk, List.mem_cons] at h
      rcases h with h | h
      · subst h
        cases hd
        right
        simp_all
      · exact Or.inl (List.mem_cons_of_mem _ h)
    · simp only [setA, if_neg hk, List.mem_cons] at h
      rcases h with h | h
      · exact Or.inl (h ▸ List.mem_cons_self _ _)
      · rcases ih h with h' | h'
        · exact Or.inl (List.mem_cons_of_mem _ h')
        · exact Or.inr h'

theorem mem_keysA_setA {α : Type} (m : List (String × α)) (k : String) (v : α) (x : String)
    (h : x ∈ keysA (setA m k v)) : x ∈ keysA m ∨ x = k := by
  simp only [keysA, List.mem_map] at h
  obtain ⟨pr, hpr, hx⟩ := h
  rcases mem_setA m k v pr hpr with h' | h'
  · exact Or.inl (by simp only [keysA, List.mem_map]; exact ⟨pr, h', hx⟩)
  · subst h'
    exact Or.inr hx.symm

theorem keysA_setA_nodup {α : Type} (m : List (String × α)) (k : String) (v : α)
    (h : (keysA m).Nodup) : (keysA (setA m k v)).Nodup := by
  induction m with
  | nil => simp [setA, keysA]
  | cons hd t ih =>
    simp only [keysA, List.map_cons, List.nodup_cons] at h
    by_cases hk : hd.1 = k
    · simp only [setA, if_pos hk, keysA, List.map_cons, List.nodup_cons]
      exact h
    · simp only [setA, if_neg hk, keysA, List.map_cons, List.nodup_cons]
      refine ⟨fun hmem => ?_, ih h.2⟩
      rcases mem_keysA_setA t k v hd.1 hmem with h' | h'
      · exact h.1 h'
      · exact hk h'

theorem mem_insertUniq (l : List String) (x y : String) :
    y ∈ insertUniq l x ↔ y ∈ l ∨ y = x := by
  unfold insertUniq
  by_cases h : x ∈ l
  · rw [if_pos (List.elem_eq_true_of_mem h)]
    constructor
    · exact Or.inl
    · rintro (hy | rfl)
      · exact hy
      · exact h
  · rw [if_neg (fun hc => h (List.mem_of_elem_eq_true hc))]
    simp

theorem mem_foldl_insertUniq (xs : List String) (init : List String) (x : String)
    (h : x ∈ init ∨ x ∈ xs) : x ∈ xs.foldl insertUniq init := by
  induction xs generalizing init with
  | nil => simpa using h.resolve_right (by simp)
  | cons hd t ih =>
    simp only [List.foldl_cons]
    apply ih
    rcases h with h | h
    · exact Or.inl ((mem_insertUniq init hd x).mpr (Or.inl h))
    · rcases List.mem_cons.mp h with rfl | h
      · exact Or.inl ((mem_insertUniq init x x).mpr (Or.inr rfl))
      · exact Or.inr h

/-! Frame and preservation lemmas for the accumulator operations. -/

theorem getEntry_setEntry_self (acc : EmitAcc) (p k v : String) :
    getEntry (setEntry acc p k v) p k = some v := by
  simp [getEntry, setEntry, getA_setA_self]

theorem getEntry_setEntry_ne_part (acc : EmitAcc) (p k v p' k' : String) (h : p' ≠ p) :
    getEntry (setEntry acc p k v) p' k' = getEntry acc p' k' := by
  simp [getEntry, setEntry, getA_setA_ne _ _ _ _ h]

theorem getEntry_setEntry_ne_key (acc : EmitAcc) (p k v p' k' : String) (h : k' ≠ k) :
    getEntry (setEntry acc p k v) p' k' = getEntry acc p' k' := by
  by_cases hp : p' = p
  · subst hp
    simp only [getEntry, setEntry, getA_setA_self, Option.some_bind]
    rw [getA_setA_ne _ _ _ _ h]
    cases hb : getA acc.outputSet p' <;> simp [hb, getA]
  · exact getEntry_setEntry_ne_part acc p k v p' k' hp

theorem getEntry_ensureBucket (acc : EmitAcc) (p p' k : String) :
    getEntry (ensureBucket acc p) p' k = getEntry acc p' k := by
  unfold ensureBucket
  by_cases hs : (getA acc.outputSet p).isSome
  · rw [if_pos hs]
  · rw [if_neg hs]
    by_cases hp : p' = p
    · subst hp
      simp only [getEntry]
      rw [getA_setA_self]
      cases hb : getA acc.outputSet p'
      · simp [getA]
      · simp [hb] at hs
    · simp [getEntry, getA_setA_ne _ _ _ _ hp]

theorem getEntry_addManifest (acc : EmitAcc) (f p k : String) :
    getEntry (addManifest acc f) p k = getEntry acc p k := rfl

theorem entryTruthy_eq_of_getEntry_eq (a b : EmitAcc) (p k : String)
    (h : getEntry a p k = getEntry b p k) : entryTruthy a p k = entryTruthy b p k := by
  simp [entryTruthy, h]

theorem outputSet_setEntry_ne (acc : EmitAcc) (p k v p' : String) (h : p' ≠ p) :
    getA (setEntry acc p k v).outputSet p' = getA acc.outputSet p' := by
  simp [setEntry, getA_setA_ne _ _ _ _ h]

theorem outputSet_ensureBucket_ne (acc : EmitAcc) (p p' : String) (h : p' ≠ p) :
    getA (ensureBucket acc p).outputSet p' = getA acc.outputSet p' := by
  unfold ensureBucket
  by_cases hs : (getA acc.outputSet p).isSome
  · rw [if_pos hs]
  · rw [if_neg hs]
    simp [getA_setA_ne _ _ _ _ h]

theorem rootBucket_setEntry (acc : EmitAcc) (p k v : String)
    (h : rootBucketIsSome acc = true) : rootBucketIsSome (setEntry acc p k v) = true := by
  unfold rootBucketIsSome at *
  by_cases hp : ("root" : String) = p
  · subst hp
    simp [setEntry, getA_setA_self]
  · simpa [setEntry, getA_setA_ne _ _ _ _ hp] using h

theorem rootBucket_ensureBucket (acc : EmitAcc) (p : String)
    (h : rootBucketIsSome acc = true) : rootBucketIsSome (ensureBucket acc p) = true := by
  unfold rootBucketIsSome ensureBucket at *
  by_cases hs : (getA acc.outputSet p).isSome
  · rw [if_pos hs]; exact h
  · rw [if_neg hs]
    by_cases hp : ("root" : String) = p
    · subst hp
      simp [getA_setA_self]
    · simpa [getA_setA_ne _ _ _ _ hp] using h

theorem scripts_setEntry (acc : EmitAcc) (p k v : String) :
    (setEntry acc p k v).scripts = acc.scripts := rfl

theorem scripts_ensureBucket (acc : EmitAcc) (p : String) :
    (ensureBucket acc p).scripts = acc.scripts := by
  unfold ensureBucket
  by_cases hs : (getA acc.outputSet p).isSome
  · rw [if_pos hs]
  · rw [if_neg hs]

/-! Partition-name lemmas for the locale chain. -/

theorem slash_mem_comp (a b : String) : '/' ∈ (a ++ "/" ++ b).data := by
  rw [string_data_append, string_data_append]
  have h : ("/" : String).data = ['/'] := rfl
  rw [h]
  simp

theorem comp_ne_dot (a b : String) : a ++ "/" ++ b ≠ "." := by
  intro h
  have hm := slash_mem_comp a b
  rw [h] at hm
  exact absurd hm (by decide)

theorem partName_dot : partName "." = "root" := rfl

theorem partName_id (s : String) (h : noSlash s) (hd : s ≠ ".") : partName s = s := by
  unfold partName
  rw [if_neg hd, slashToDash_id s h]

theorem partName_comp (a b : String) (ha : noSlash a) (hb : noSlash b) :
    partName (a ++ "/" ++ b) = a ++ "-" ++ b := by
  unfold partName
  rw [if_neg (comp_ne_dot a b), slashToDash_comp a b ha hb]

theorem partName_comp3 (a b c : String) (ha : noSlash a) (hb : noSlash b) (hc : noSlash c) :
    partName (a ++ "/" ++ b ++ "/" ++ c) = a ++ "-" ++ b ++ "-" ++ c := by
  unfold partName
  rw [if_neg (comp_ne_dot (a ++ "/" ++ b) c), slashToDash_append, slashToDash_append,
    slashToDash_comp a b ha hb, slashToDash_id c hc, slashToDash_slash]

/-- Claim C1 (confirmed): for every locale tag, the generic-feature resolution
path list built inside `emitLocaleData`, flattened to partition names, is
exactly the ordered sequence root, language, language-script (only if a script
is present), language-script-region (only if script and region are present),
language-region and und-region (only if a region is present) — region-based
entries always after script-based entries.  The hypotheses state that the
locale components are slash-free and the language is not the literal `"."`,
which holds of every tag the external locale parser can produce. -/
theorem locale_chain_order (l : ILocale)
    (h1 : noSlash l.language) (h2 : l.language ≠ ".")
    (h3 : noSlash (l.script.getD "")) (h4 : noSlash (l.region.getD "")) :
    (localeParts l).map partName = specChain l := by
  unfold localeParts specChain
  by_cases hsc : oTruthy l.script = true
  · by_cases hrg : oTruthy l.region = true
    · simp only [hsc, hrg, if_true, List.map_append, List.map_cons, List.map_nil]
      rw [partName_dot, partName_id l.language h1 h2,
        partName_comp l.language _ h1 h3,
        partName_comp3 l.language _ _ h1 h3 h4,
        partName_comp l.language _ h1 h4,
        partName_comp "und" _ (by decide) h4]
    · simp only [hsc, hrg, if_true, if_false, Bool.false_eq_true,
        List.map_append, List.map_cons, List.map_nil, List.append_nil]
      rw [partName_dot, partName_id l.language h1 h2,
        partName_comp l.language _ h1 h3]
  · by_cases hrg : oTruthy l.region = true
    · simp only [hsc, hrg, if_true, if_false, Bool.false_eq_true,
        List.map_append, List.map_cons, List.map_nil, List.nil_append]
      rw [partName_dot, partName_id l.language h1 h2,
        partName_comp l.language _ h1 h4,
        partName_comp "und" _ (by decide) h4]
    · simp only [hsc, hrg, if_false, Bool.false_eq_true,
        List.map_append, List.map_cons, List.map_nil, List.append_nil]
      rw [partName_dot, partName_id l.language h1 h2]

/-- Witness for C1 at the concrete tag zh-Hans-CN. -/
theorem locale_chain_order_witness :
    (localeParts { language := "zh", script := some "Hans", region := some "CN" }).map partName =
      ["root", "zh", "zh-Hans", "zh-Hans-CN", "zh-CN", "und-CN"] := by
  rw [locale_chain_order { language := "zh", script := some "Hans", region := some "CN" }
    (by decide) (by decide) (by decide) (by decide)]
  rfl

/-- Claim C4 (confirmed): `addData` with a name already in the feature set
changes nothing at all (in particular the emission cache keeps its state);
with a new name it always clears `localeDataEmitted`; and the feature set only
grows. -/
theorem addData_monotonic (st : PluginState) (d : String) :
    (d ∈ st.localeData → addData st d = st) ∧
    (d ∉ st.localeData → (addData st d).localeDataEmitted = none) ∧
    (∀ x, x ∈ st.localeData → x ∈ (addData st d).localeData) := by
  refine ⟨fun h => ?_, fun h => ?_, fun x hx => ?_⟩
  · unfold addData insertUniq
    rw [if_pos (List.elem_eq_true_of_mem h), if_pos (List.elem_eq_true_of_mem h)]
  · unfold addData
    rw [if_neg (fun hc => h (List.mem_of_elem_eq_true hc))]
  · exact (mem_insertUniq st.localeData d x).mpr (Or.inl hx)

/-- Witness for C4: a present name is a no-op, a new name clears the cache,
and membership is preserved. -/
theorem addData_monotonic_witness :
    addData { localeData := ["a"], localeDataEmitted := some [] } "a" =
      { localeData := ["a"], localeDataEmitted := some [] } ∧
    (addData { localeData := ["a"], localeDataEmitted := some [] } "b").localeDataEmitted = none ∧
    "a" ∈ (addData { localeData := ["a"], localeDataEmitted := some [] } "b").localeData :=
  ⟨(addData_monotonic { localeData := ["a"], localeDataEmitted := some [] } "a").1
     (List.mem_singleton.mpr rfl),
   (addData_monotonic { localeData := ["a"], localeDataEmitted := some [] } "b").2.1
     (by decide),
   (addData_monotonic { localeData := ["a"], localeDataEmitted := some [] } "b").2.2 "a"
     (List.mem_singleton.mpr rfl)⟩

/-- Claim C3 (confirmed): a successful `emitLocaleData` run caches its result,
and running it again with the unchanged state returns the byte-identical
sources mapping and the same state. -/
theorem emit_idempotent (env : Env) (opts : EmitOptions) (st : PluginState)
    (s : List (String × String)) (st' : PluginState)
    (h : emitLocaleData env opts st = (some s, st')) :
    emitLocaleData env opts st' = (some s, st') := by
  unfold emitLocaleData at h
  cases hc : st.localeDataEmitted with
  | some s0 =>
    rw [hc] at h
    obtain ⟨h1, h2⟩ := Prod.mk.injEq .. ▸ h
    injection h1 with h1
    subst h1
    subst h2
    simp [emitLocaleData, hc]
  | none =>
    rw [hc] at h
    cases he : coreEmit env opts st.localeData with
    | some s1 =>
      rw [he] at h
      obtain ⟨h1, h2⟩ := Prod.mk.injEq .. ▸ h
      injection h1 with h1
      subst h1
      subst h2
      simp [emitLocaleData]
    | none =>
      rw [he] at h
      exact absurd (Prod.mk.injEq .. ▸ h).1 (by simp)

/-- A minimal environment on which an emission pass succeeds: nothing exists
on disk, so the generic feature resolves to empty placeholder entries. -/
def envMin : Env :=
  { fs := { existsSync := fun _ => false, readFileSync := fun _ => none,
            readdirSync := fun _ => none },
    cwd := "/w", likelyScript := fun _ => none, lang2charset := fun _ => none,
    parseCharsetOptional := fun _ => none, parseZonetab := fun _ => none,
    findIlibRoot := none }

def locEn : ILocale := { language := "en", script := none, region := none }

def optsMin : EmitOptions :=
  { locales := [locEn], ilibRoot := some "/i", compilation := none,
    tempDir := some "/t", debug := false }

def c3src : List (String × String) := (coreEmit envMin optsMin ["plurals"]).getD []

/-- Witness for C3: a concrete successful first pass, and the second pass
returning the byte-identical sources. -/
theorem emit_idempotent_witness :
    emitLocaleData envMin optsMin { localeData := ["plurals"], localeDataEmitted := none } =
      (some c3src, { localeData := ["plurals"], localeDataEmitted := some c3src }) ∧
    emitLocaleData envMin optsMin { localeData := ["plurals"], localeDataEmitted := some c3src } =
      (some c3src, { localeData := ["plurals"], localeDataEmitted := some c3src }) :=
  ⟨rfl,
   emit_idempotent envMin optsMin { localeData := ["plurals"], localeDataEmitted := none }
     c3src { localeData := ["plurals"], localeDataEmitted := some c3src } rfl⟩

/-- Claim C10 (confirmed): once `emitLocaleData` has cached a result, every
subsequent call returns the identical cached sources mapping and leaves the
state unchanged, for any environment and any options whatsoever; re-adding an
already-present feature name keeps the cache, while a previously-unseen name
clears it. -/
theorem emit_cached_ignores_options (env : Env) (opts : EmitOptions) (st : PluginState)
    (s : List (String × String)) (h : st.localeDataEmitted = some s) :
    emitLocaleData env opts st = (some s, st) ∧
    (∀ d, d ∈ st.localeData → (addData st d).localeDataEmitted = some s) ∧
    (∀ d, d ∉ st.localeData → (addData st d).localeDataEmitted = none) := by
  refine ⟨?_, fun d hd => ?_, fun d hd => ?_⟩
  · unfold emitLocaleData
    rw [h]
  · unfold addData
    rw [if_pos (List.elem_eq_true_of_mem hd)]
    exact h
  · unfold addData
    rw [if_neg (fun hc => hd (List.mem_of_elem_eq_true hc))]

def optsAlt : EmitOptions :=
  { locales := [{ language := "de", script := none, region := some "DE" }],
    ilibRoot := none, compilation := some "uncompiled", tempDir := none, debug := true }

/-- Witness for C10: the cached state returns the same mapping under two
entirely different option records, survives re-adding a seen name, and is
cleared by a new name. -/
theorem emit_cached_ignores_options_witness :
    emitLocaleData envMin optsMin
        { localeData := ["x"], localeDataEmitted := some [("p", "t")] } =
      (some [("p", "t")], { localeData := ["x"], localeDataEmitted := some [("p", "t")] }) ∧
    emitLocaleData envMin optsAlt
        { localeData := ["x"], localeDataEmitted := some [("p", "t")] } =
      (some [("p", "t")], { localeData := ["x"], localeDataEmitted := some [("p", "t")] }) ∧
    (addData { localeData := ["x"], localeDataEmitted := some [("p", "t")] } "x").localeDataEmitted =
      some [("p", "t")] ∧
    (addData { localeData := ["x"], localeDataEmitted := some [("p", "t")] } "y").localeDataEmitted =
      none :=
  ⟨(emit_cached_ignores_options envMin optsMin
      { localeData := ["x"], localeDataEmitted := some [("p", "t")] } [("p", "t")] rfl).1,
   (emit_cached_ignores_options envMin optsAlt
      { localeData := ["x"], localeDataEmitted := some [("p", "t")] } [("p", "t")] rfl).1,
   (emit_cached_ignores_options envMin optsMin
      { localeData := ["x"], localeDataEmitted := some [("p", "t")] } [("p", "t")] rfl).2.1 "x"
     (List.mem_singleton.mpr rfl),
   (emit_cached_ignores_options envMin optsMin
      { localeData := ["x"], localeDataEmitted := some [("p", "t")] } [("p", "t")] rfl).2.2 "y"
     (by decide)⟩

/-- An environment where locale `en` has likely script `Latn`, a root-level
`plurals.json` exists (so the root bucket is created), and `nfc/Latn.json`
exists and is readable. -/
def envC2 : Env :=
  { fs := { existsSync := fun p =>
              p = "/i/locale/plurals.json" || p = "/i/locale/nfc/Latn.json",
            readFileSync := fun p =>
              if p = "/i/locale/plurals.json" then some "PL"
              else if p = "/i/locale/nfc/Latn.json" then some "NFCL"
              else none,
            readdirSync := fun _ => none },
    cwd := "/w",
    likelyScript := fun l => if l.language = "en" then some "Latn" else none,
    lang2charset := fun _ => none, parseCharsetOptional := fun _ => none,
    parseZonetab := fun _ => none, findIlibRoot := none }

/-- Counterexample to claim C2 as stated: the feature set registers form `nfc`
with an empty script token only, the global required-scripts set is `[Latn]`,
the `nfc/Latn.json` fragment exists, the root bucket is created by the
`plurals` feature — and yet the pass emits no `nfc` fragment for `Latn` (nor
for any script): the fallback to the required-scripts set never runs. -/
theorem norm_required_scripts_fallback_cex :
    (buildOutputSet envC2 optsMin ["plurals", "nfc"]).map
        (fun a => (getA a.normalizations "nfc", a.scripts,
          getEntry a "root" "nfc/Latn", rootBucketIsSome a)) =
      some (some [""], ["Latn"], none, true) ∧
    envC2.fs.existsSync "/i/locale/nfc/Latn.json" = true := by
  constructor
  · rfl
  · rfl

theorem addFormStep_empty_script (env : Env) (dataRoot : String) (acc : EmitAcc) (form : String) :
    addFormStep env dataRoot acc form "" = acc := by
  unfold addFormStep
  rw [if_pos rfl]

theorem foldl_addFormStep_empty (env : Env) (dataRoot form : String) (set : List String)
    (acc : EmitAcc) (hall : ∀ s ∈ set, s = "") :
    set.foldl (fun a2 sc => addFormStep env dataRoot a2 form sc) acc = acc := by
  induction set with
  | nil => rfl
  | cons hd t ih =>
    rw [List.foldl_cons, hall hd (List.mem_cons_self _ _), addFormStep_empty_script]
    exact ih (fun s hs => hall s (List.mem_cons_of_mem _ hs))

/-- Claim C2, amended (the code does not implement the claimed fallback): for
a normalization form whose registrations all carried an empty script token,
the per-form emission step emits nothing at all — it leaves the accumulator
unchanged instead of falling back to the required-scripts set, because the
`size` property the source consults on the plain `normalizations` object is
`undefined`, so the fallback condition is never true. -/
theorem norm_empty_token_emits_nothing (env : Env) (dataRoot : String) (scripts : List String)
    (acc : EmitAcc) (form : String) (set : List String) (hall : ∀ s ∈ set, s = "") :
    processNormForm env dataRoot scripts acc form set = acc := by
  have hcontains : set.contains "all" = false := by
    cases hc : set.contains "all" with
    | false => rfl
    | true =>
      have := hall "all" (List.mem_of_elem_eq_true hc)
      simp at this
  unfold processNormForm
  rw [if_neg (fun hc => Bool.false_ne_true (hcontains ▸ hc))]
  simp only [jsObjectSizeProp]
  rw [if_neg (by simp)]
  exact foldl_addFormStep_empty env dataRoot form set acc hall

/-- Witness for the amended C2 at a concrete accumulator with a root bucket,
required script `Latn` and an existing readable `nfc/Latn.json`. -/
theorem norm_empty_token_emits_nothing_witness :
    processNormForm envC2 "/i/locale" ["Latn"]
        { scripts := ["Latn"], normalizations := [("nfc", [""])], charsets := [],
          charmaps := [], outputSet := [("root", [("plurals", "x")])], manifest := [] }
        "nfc" [""] =
      { scripts := ["Latn"], normalizations := [("nfc", [""])], charsets := [],
        charmaps := [], outputSet := [("root", [("plurals", "x")])], manifest := [] } :=
  norm_empty_token_emits_nothing envC2 "/i/locale" ["Latn"]
    { scripts := ["Latn"], normalizations := [("nfc", [""])], charsets := [],
      charmaps := [], outputSet := [("root", [("plurals", "x")])], manifest := [] }
    "nfc" [""] (by decide)

/-! Claim C9: a feature set holding only normalization-form names. -/

theorem addFormStep_no_root (env : Env) (dataRoot : String) (acc : EmitAcc) (form script : String)
    (h : rootBucketIsSome acc = false) :
    addFormStep env dataRoot acc form script = acc := by
  unfold addFormStep
  by_cases hs : script = ""
  · rw [if_pos hs]
  · rw [if_neg hs]
    by_cases he : env.fs.existsSync (pjoin (pjoin dataRoot form) (script ++ ".json")) = true
    · rw [if_pos he]
      cases hread : env.fs.readFileSync (pjoin (pjoin dataRoot form) (script ++ ".json")) with
      | none => rfl
      | some d =>
        exact if_neg (fun hh => Bool.false_ne_true (h ▸ hh))
    · rw [if_neg he]

theorem foldl_addFormStep_no_root (env : Env) (dataRoot form : String) (set : List String)
    (acc : EmitAcc) (h : rootBucketIsSome acc = false) :
    set.foldl (fun a2 sc => addFormStep env dataRoot a2 form sc) acc = acc := by
  induction set with
  | nil => rfl
  | cons hd t ih =>
    rw [List.foldl_cons, addFormStep_no_root env dataRoot acc form hd h]
    exact ih

theorem processNormForm_no_root (env : Env) (dataRoot : String) (scripts : List String)
    (acc : EmitAcc) (form : String) (set : List String) (h : rootBucketIsSome acc = false) :
    processNormForm env dataRoot scripts acc form set = acc := by
  unfold processNormForm
  by_cases hall : set.contains "all" = true
  · rw [if_pos hall]
    exact addFormStep_no_root env dataRoot acc form "all" h
  · rw [if_neg hall]
    simp only [jsObjectSizeProp]
    rw [if_neg (by simp)]
    exact foldl_addFormStep_no_root env dataRoot form set acc h

theorem processNorms_no_root (env : Env) (dataRoot : String) (acc : EmitAcc)
    (h : rootBucketIsSome acc = false) :
    processNorms env dataRoot acc = acc := by
  unfold processNorms
  generalize acc.normalizations = l
  induction l with
  | nil => rfl
  | cons hd t ih =>
    rw [List.foldl_cons, processNormForm_no_root env dataRoot acc.scripts acc hd.1 hd.2 h]
    exact ih

/-- A feature name that the classifier sends to the normalization branch. -/
def NormOnly (f : String) : Prop :=
  f ≠ "charset" ∧ f ≠ "charmaps" ∧ (normMatch f).isSome = true

/-- The accumulator parts that stay empty during a normalization-only pass. -/
def EmptyOut (acc : EmitAcc) : Prop :=
  acc.outputSet = [] ∧ acc.manifest = [] ∧ acc.charsets = []

theorem collectNorm_emptyOut (form : String) (script : Option String) (acc : EmitAcc)
    (h : EmptyOut acc) : EmptyOut (collectNorm form script acc) := by
  obtain ⟨h1, h2, h3⟩ := h
  exact ⟨h1, h2, h3⟩

theorem featureStep_norm_only (env : Env) (dataRoot : String) (locales : List ILocale)
    (loc : ILocale) (acc : EmitAcc) (f : String) (hf : NormOnly f) :
    ∃ form script, normMatch f = some (form, script) ∧
      featureStep env dataRoot locales loc acc f = some (collectNorm form script acc) := by
  obtain ⟨h1, h2, hm⟩ := hf
  cases hms : normMatch f with
  | none => rw [hms] at hm; simp at hm
  | some pr =>
    obtain ⟨form, script⟩ := pr
    refine ⟨form, script, rfl, ?_⟩
    unfold featureStep
    rw [if_neg (by simp [h1, h2]), hms]

theorem features_fold_norm_only (env : Env) (dataRoot : String) (locales : List ILocale)
    (loc : ILocale) (feats : List String) (acc : EmitAcc)
    (hf : ∀ f ∈ feats, NormOnly f) (hE : EmptyOut acc) :
    ∃ acc', feats.foldlM (featureStep env dataRoot locales loc) acc = some acc' ∧
      EmptyOut acc' := by
  induction feats generalizing acc with
  | nil => exact ⟨acc, rfl, hE⟩
  | cons f t ih =>
    obtain ⟨form, script, hms, hstep⟩ :=
      featureStep_norm_only env dataRoot locales loc acc f (hf f (List.mem_cons_self _ _))
    obtain ⟨acc', hfold, hE'⟩ := ih (collectNorm form script acc)
      (fun g hg => hf g (List.mem_cons_of_mem _ hg))
      (collectNorm_emptyOut form script acc hE)
    exact ⟨acc', by rw [List.foldlM_cons, hstep]; exact hfold, hE'⟩

theorem locales_fold_norm_only (env : Env) (dataRoot : String) (locales : List ILocale)
    (locs : List ILocale) (feats : List String) (acc : EmitAcc)
    (hf : ∀ f ∈ feats, NormOnly f) (hE : EmptyOut acc) :
    ∃ acc', locs.foldlM
        (fun a loc => feats.foldlM (featureStep env dataRoot locales loc) a) acc = some acc' ∧
      EmptyOut acc' := by
  induction locs generalizing acc with
  | nil => exact ⟨acc, rfl, hE⟩
  | cons loc t ih =>
    obtain ⟨acc1, hstep, hE1⟩ := features_fold_norm_only env dataRoot locales loc feats acc hf hE
    obtain ⟨acc', hfold, hE'⟩ := ih acc1 hE1
    exact ⟨acc', by rw [List.foldlM_cons, hstep]; exact hfold, hE'⟩

/-- Claim C9 (confirmed): when the registered feature set contains only
normalization-form names, the pass completes (the caught `TypeError` on the
missing root bucket inside `addForm` never escapes), yet no partition bucket,
no normalization assignment and no manifest entry is ever produced. -/
theorem norm_only_pass_emits_nothing (env : Env) (opts : EmitOptions) (feats : List String)
    (dr : String) (hdr : calcDataRoot env opts = some dr)
    (hfeats : ∀ f ∈ feats, f ≠ "charset" ∧ f ≠ "charmaps" ∧ (normMatch f).isSome = true) :
    ∃ acc, buildOutputSet env opts feats = some acc ∧
      acc.outputSet = [] ∧ acc.manifest = [] ∧ rootBucketIsSome acc = false := by
  obtain ⟨acc1, hfold, hE1⟩ := locales_fold_norm_only env dr opts.locales opts.locales feats
    (initAcc env opts.locales) hfeats ⟨rfl, rfl, rfl⟩
  have hroot : rootBucketIsSome acc1 = false := by
    unfold rootBucketIsSome
    rw [hE1.1]
    rfl
  refine ⟨acc1, ?_, hE1.1, hE1.2.1, hroot⟩
  have hcs : processCharsets env dr acc1 = some acc1 := by
    unfold processCharsets
    rw [if_pos (by rw [hE1.2.2]; rfl)]
  unfold buildOutputSet
  rw [hdr]
  simp only [hfold, hcs, processNorms_no_root env dr acc1 hroot]

/-- Witness for C9: the concrete feature set containing only `nfc/Latn`, on an
environment where that fragment exists and is readable, completes and emits
nothing. -/
theorem norm_only_pass_emits_nothing_witness :
    ∃ acc, buildOutputSet envC2 optsMin ["nfc/Latn"] = some acc ∧
      acc.outputSet = [] ∧ acc.manifest = [] ∧ rootBucketIsSome acc = false :=
  norm_only_pass_emits_nothing envC2 optsMin ["nfc/Latn"] "/i/locale" rfl (by decide)

/-! Claim C8: which fragment failures are caught and which abort the pass. -/

/-- An environment where the zonetab is fine but one generic zone file listed
in the zoneinfo directory fails to read; some other fragments exist but fail
to read as well, for exercising the guarded branches. -/
def envC8 : Env :=
  { fs := { existsSync := fun p =>
              p = "/i/locale/en/plurals.json" || p = "/i/locale/zoneinfo/Ghost.json" ||
                p = "/i/locale/nfc/Latn.json",
            readFileSync := fun p =>
              if p = "/i/locale/zoneinfo/zonetab.json" then some "ZT" else none,
            readdirSync := fun p =>
              if p = "/i/locale/zoneinfo" then some ["Bad.json"]
              else if p = "/i/locale/zoneinfo/Etc" then some []
              else none },
    cwd := "/w", likelyScript := fun _ => none, lang2charset := fun _ => none,
    parseCharsetOptional := fun _ => none,
    parseZonetab := fun d => if d = "ZT" then some [("US", [])] else none,
    findIlibRoot := none }

/-- Counterexample to claim C8 as stated: a single unreadable fragment file
(the generic zone file `Bad.json`, whose read throws while the zonetab and
everything else succeed) aborts the whole aggregation pass — the generic-zone
loop of the source has no `try`/`catch`. -/
theorem single_bad_fragment_aborts_cex :
    envC8.fs.readFileSync "/i/locale/zoneinfo/zonetab.json" = some "ZT" ∧
    envC8.fs.readFileSync "/i/locale/zoneinfo/Bad.json" = none ∧
    coreEmit envC8 optsMin ["zoneinfo"] = none := by
  refine ⟨rfl, rfl, ?_⟩
  rfl

/-- Claim C8, amended: fragment read failures are caught, logged and skipped
only at the three guarded sites — the generic per-partition fragment loop, the
region-zone loop and `addForm` — where the step completes and the pass
continues with the state the `try` block had already built (for the generic
step, just the ensured bucket); reads of the zonetab, the generic zone-file
list, `charsetaliases`, charset and charmap fragments are unguarded and abort
the pass. -/
theorem guarded_fragment_failures_caught (env : Env) (dataRoot filename : String)
    (acc : EmitAcc) (localeDir zone form script : String)
    (hg1 : env.fs.existsSync (pjoin (pjoin dataRoot localeDir) (filename ++ ".json")) = true)
    (hg2 : entryTruthy acc (partName localeDir) filename = false)
    (hg3 : env.fs.readFileSync (pjoin (pjoin dataRoot localeDir) (filename ++ ".json")) = none)
    (hz1 : env.fs.existsSync (pjoin (pjoin dataRoot "zoneinfo") (zone ++ ".json")) = true)
    (hz2 : env.fs.readFileSync (pjoin (pjoin dataRoot "zoneinfo") (zone ++ ".json")) = none)
    (hf1 : script ≠ "")
    (hf2 : env.fs.existsSync (pjoin (pjoin dataRoot form) (script ++ ".json")) = true)
    (hf3 : env.fs.readFileSync (pjoin (pjoin dataRoot form) (script ++ ".json")) = none) :
    genericStep env dataRoot filename acc localeDir = ensureBucket acc (partName localeDir) ∧
    zoneStep env dataRoot acc zone = acc ∧
    addFormStep env dataRoot acc form script = acc := by
  refine ⟨?_, ?_, ?_⟩
  · unfold genericStep
    rw [if_pos hg1]
    have he : entryTruthy (ensureBucket acc (partName localeDir)) (partName localeDir) filename =
        entryTruthy acc (partName localeDir) filename :=
      entryTruthy_eq_of_getEntry_eq _ _ _ _ (getEntry_ensureBucket acc _ _ _)
    rw [he, hg2]
    simp only [Bool.false_eq_true, if_false]
    rw [hg3]
  · unfold zoneStep
    rw [if_pos hz1, hz2]
  · unfold addFormStep
    rw [if_neg hf1, if_pos hf2, hf3]

def accBlank : EmitAcc :=
  { scripts := [], normalizations := [], charsets := [], charmaps := [],
    outputSet := [], manifest := [] }

/-! Claim C5: the deduplication invariant.  The partition map and every
bucket keep their keys nodup through every mutation of a pass, because the
only write primitive is the in-place-or-append assignment `setA`. -/

/-- Well-formedness of the partition map: partition keys are nodup and every
bucket's feature keys are nodup. -/
def AccWF (acc : EmitAcc) : Prop :=
  (keysA acc.outputSet).Nodup ∧ ∀ pb ∈ acc.outputSet, (keysA pb.2).Nodup

theorem accWF_setEntry (acc : EmitAcc) (p k v : String) (h : AccWF acc) :
    AccWF (setEntry acc p k v) := by
  obtain ⟨h1, h2⟩ := h
  constructor
  · exact keysA_setA_nodup _ _ _ h1
  · intro pb hpb
    rcases mem_setA _ _ _ _ hpb with hm | hm
    · exact h2 pb hm
    · subst hm
      cases hb : getA acc.outputSet p with
      | none => simp only [hb, Option.getD_none]; exact keysA_setA_nodup [] k v (by simp [keysA])
      | some b =>
        simp only [hb, Option.getD_some]
        exact keysA_setA_nodup b k v (h2 (p, b) (getA_mem _ _ _ hb))

theorem accWF_ensureBucket (acc : EmitAcc) (p : String) (h : AccWF acc) :
    AccWF (ensureBucket acc p) := by
  obtain ⟨h1, h2⟩ := h
  unfold ensureBucket
  by_cases hs : (getA acc.outputSet p).isSome
  · rw [if_pos hs]; exact ⟨h1, h2⟩
  · rw [if_neg hs]
    constructor
    · exact keysA_setA_nodup _ _ _ h1
    · intro pb hpb
      rcases mem_setA _ _ _ _ hpb with hm | hm
      · exact h2 pb hm
      · subst hm; simp [keysA]

theorem accWF_addManifest (acc : EmitAcc) (f : String) (h : AccWF acc) :
    AccWF (addManifest acc f) := h

theorem foldl_inv {σ α : Type} (f : σ → α → σ) (Q : σ → Prop)
    (hf : ∀ s x, Q s → Q (f s x)) (l : List α) (s : σ) (hs : Q s) : Q (l.foldl f s) := by
  induction l generalizing s with
  | nil => exact hs
  | cons x t ih => exact ih (f s x) (hf s x hs)

theorem foldlM_inv {σ α : Type} (f : σ → α → Option σ) (Q : σ → Prop)
    (hf : ∀ s x s', f s x = some s' → Q s → Q s')
    (l : List α) (s s' : σ) (hl : l.foldlM f s = some s') (hs : Q s) : Q s' := by
  induction l generalizing s with
  | nil =>
    simp only [List.foldlM_nil] at hl
    injection hl with hl
    exact hl ▸ hs
  | cons x t ih =>
    rw [List.foldlM_cons] at hl
    cases hstep : f s x with
    | none => rw [hstep] at hl; exact absurd hl (by simp)
    | some s1 =>
      rw [hstep] at hl
      exact ih s1 hl (hf s x s1 hstep hs)

theorem outputSet_collectCharset (env : Env) (loc : ILocale) (fn : String) (acc : EmitAcc) :
    (collectCharset env loc fn acc).outputSet = acc.outputSet := by
  unfold collectCharset
  repeat' split
  all_goals rfl

theorem accWF_collectCharset (env : Env) (loc : ILocale) (fn : String) (acc : EmitAcc)
    (h : AccWF acc) : AccWF (collectCharset env loc fn acc) := by
  unfold AccWF
  rw [outputSet_collectCharset]
  exact h

theorem accWF_collectNorm (form : String) (script : Option String) (acc : EmitAcc)
    (h : AccWF acc) : AccWF (collectNorm form script acc) := h

theorem accWF_genericStep (env : Env) (dataRoot fn : String) (acc : EmitAcc) (d : String)
    (h : AccWF acc) : AccWF (genericStep env dataRoot fn acc d) := by
  unfold genericStep
  dsimp only
  split
  · split
    · exact accWF_ensureBucket acc _ h
    · split
      · exact accWF_ensureBucket acc _ h
      · exact accWF_addManifest _ _ (accWF_setEntry _ _ _ _ (accWF_ensureBucket acc _ h))
  · exact accWF_addManifest _ _ (accWF_setEntry _ _ _ _ (accWF_ensureBucket acc _ h))

theorem accWF_processGenericFeature (env : Env) (dataRoot : String) (loc : ILocale)
    (fn : String) (acc : EmitAcc) (h : AccWF acc) :
    AccWF (processGenericFeature env dataRoot loc fn acc) :=
  foldl_inv _ AccWF (fun a x ha => accWF_genericStep env dataRoot fn a x ha) _ acc h

theorem accWF_zoneStep (env : Env) (dataRoot : String) (acc : EmitAcc) (zone : String)
    (h : AccWF acc) : AccWF (zoneStep env dataRoot acc zone) := by
  unfold zoneStep
  dsimp only
  split
  · split
    · exact h
    · exact accWF_addManifest _ _ (accWF_setEntry _ _ _ _ h)
  · exact h

theorem accWF_genericZoneStep (env : Env) (dataRoot : String) (acc : EmitAcc) (f : String)
    (a' : EmitAcc) (hstep : genericZoneStep env dataRoot acc f = some a') (h : AccWF acc) :
    AccWF a' := by
  unfold genericZoneStep at hstep
  cases hr : env.fs.readFileSync (pjoin (pjoin dataRoot "zoneinfo") f) with
  | none => rw [hr] at hstep; exact absurd hstep (by simp)
  | some d =>
    rw [hr] at hstep
    injection hstep with hstep
    exact hstep ▸ accWF_addManifest _ _ (accWF_setEntry _ _ _ _ h)

theorem accWF_processZoneinfo (env : Env) (dataRoot : String) (locales : List ILocale)
    (acc : EmitAcc) (a' : EmitAcc) (hp : processZoneinfo env dataRoot locales acc = some a')
    (h : AccWF acc) : AccWF a' := by
  unfold processZoneinfo at hp
  cases h1 : env.fs.readFileSync (pjoin dataRoot "zoneinfo/zonetab.json") with
  | none => simp only [h1] at hp; exact Option.noConfusion hp
  | some d =>
    simp only [h1] at hp
    cases h2 : env.parseZonetab d with
    | none => simp only [h2] at hp; exact Option.noConfusion hp
    | some zonetab =>
      simp only [h2] at hp
      cases h3 : env.fs.readdirSync (pjoin dataRoot "zoneinfo") with
      | none => simp only [h3] at hp; exact Option.noConfusion hp
      | some l1 =>
        simp only [h3] at hp
        cases h4 : env.fs.readdirSync (pjoin (pjoin dataRoot "zoneinfo") "Etc") with
        | none => simp only [h4] at hp; exact Option.noConfusion hp
        | some l2 =>
          simp only [h4] at hp
          refine foldlM_inv _ AccWF
            (fun a x a2 hx ha => accWF_genericZoneStep env dataRoot a x a2 hx ha) _ _ a' hp ?_
          unfold zoneinfoAfterRegions
          exact foldl_inv _ AccWF (fun a x ha => accWF_zoneStep env dataRoot a x ha) _ _
            (accWF_addManifest _ _ (accWF_setEntry _ _ _ _ (accWF_ensureBucket acc _ h)))

theorem accWF_aliasStep (env : Env) (dataRoot : String) (acc : EmitAcc) (a' : EmitAcc)
    (hstep : aliasStep env dataRoot acc = some a') (h : AccWF acc) : AccWF a' := by
  unfold aliasStep at hstep
  dsimp only at hstep
  split at hstep
  · split at hstep
    · exact absurd hstep (by simp)
    · injection hstep with hstep
      exact hstep ▸ accWF_addManifest _ _ (accWF_setEntry _ _ _ _ h)
  · injection hstep with hstep
    exact hstep ▸ h

theorem accWF_charsetStep (env : Env) (dataRoot : String) (st : EmitAcc × List String)
    (cs : String) (st' : EmitAcc × List String)
    (hstep : charsetStep env dataRoot st cs = some st') (h : AccWF st.1) : AccWF st'.1 := by
  unfold charsetStep at hstep
  dsimp only at hstep
  split at hstep
  · split at hstep
    · exact absurd hstep (by simp)
    · split at hstep
      · exact absurd hstep (by simp)
      · injection hstep with hstep
        rw [← hstep]
        exact accWF_addManifest _ _ (accWF_setEntry _ _ _ _ h)
  · injection hstep with hstep
    exact hstep ▸ h

theorem accWF_charmapStep (env : Env) (dataRoot : String) (opt : List String) (acc : EmitAcc)
    (cs : String) (a' : EmitAcc) (hstep : charmapStep env dataRoot opt acc cs = some a')
    (h : AccWF acc) : AccWF a' := by
  unfold charmapStep at hstep
  dsimp only at hstep
  split at hstep
  · split at hstep
    · exact absurd hstep (by simp)
    · injection hstep with hstep
      exact hstep ▸ accWF_addManifest _ _ (accWF_setEntry _ _ _ _ h)
  · injection hstep with hstep
    exact hstep ▸ h

theorem accWF_processCharsets (env : Env) (dataRoot : String) (acc : EmitAcc) (a' : EmitAcc)
    (hp : processCharsets env dataRoot acc = some a') (h : AccWF acc) : AccWF a' := by
  unfold processCharsets at hp
  split at hp
  · injection hp with hp
    exact hp ▸ h
  · cases h1 : aliasStep env dataRoot (ensureBucket acc "root") with
    | none => simp only [h1] at hp; exact Option.noConfusion hp
    | some acc1 =>
      simp only [h1] at hp
      have hwf1 : AccWF acc1 :=
        accWF_aliasStep env dataRoot _ acc1 h1 (accWF_ensureBucket acc _ h)
      cases h2 : acc1.charsets.foldlM (charsetStep env dataRoot) (acc1, []) with
      | none => simp only [h2] at hp; exact Option.noConfusion hp
      | some st =>
        simp only [h2] at hp
        have hwfst : AccWF st.1 :=
          foldlM_inv _ (fun s => AccWF s.1)
            (fun s x s2 hx hs => accWF_charsetStep env dataRoot s x s2 hx hs) _ _ st h2 hwf1
        refine foldlM_inv _ AccWF (fun a pr a2 hx ha => ?_) _ _ a' hp hwfst
        exact foldlM_inv _ AccWF
          (fun b y b2 hy hb => accWF_charmapStep env dataRoot st.2 b y b2 hy hb) _ _ a2 hx ha

theorem accWF_addFormStep (env : Env) (dataRoot : String) (acc : EmitAcc) (form script : String)
    (h : AccWF acc) : AccWF (addFormStep env dataRoot acc form script) := by
  unfold addFormStep
  dsimp only
  split
  · exact h
  · split
    · split
      · exact h
      · split
        · exact accWF_addManifest _ _ (accWF_setEntry _ _ _ _ h)
        · exact h
    · exact h

theorem accWF_processNormForm (env : Env) (dataRoot : String) (scripts : List String)
    (acc : EmitAcc) (form : String) (set : List String) (h : AccWF acc) :
    AccWF (processNormForm env dataRoot scripts acc form set) := by
  unfold processNormForm
  split
  · exact accWF_addFormStep env dataRoot acc form "all" h
  · exact foldl_inv _ AccWF (fun a x ha => accWF_addFormStep env dataRoot a form x ha) _ acc h

theorem accWF_processNorms (env : Env) (dataRoot : String) (acc : EmitAcc) (h : AccWF acc) :
    AccWF (processNorms env dataRoot acc) := by
  unfold processNorms
  generalize acc.normalizations = l
  exact foldl_inv _ AccWF
    (fun a pr ha => accWF_processNormForm env dataRoot a.scripts a pr.1 pr.2 ha) l acc h

theorem accWF_featureStep (env : Env) (dataRoot : String) (locales : List ILocale)
    (loc : ILocale) (acc : EmitAcc) (f : String) (a' : EmitAcc)
    (hstep : featureStep env dataRoot locales loc acc f = some a') (h : AccWF acc) :
    AccWF a' := by
  unfold featureStep at hstep
  split at hstep
  · injection hstep with hstep
    exact hstep ▸ accWF_collectCharset env loc f acc h
  · split at hstep
    · injection hstep with hstep
      exact hstep ▸ accWF_collectNorm _ _ acc h
    · split at hstep
      · exact accWF_processZoneinfo env dataRoot locales acc a' hstep h
      · injection hstep with hstep
        exact hstep ▸ accWF_processGenericFeature env dataRoot loc f acc h

theorem accWF_buildOutputSet (env : Env) (opts : EmitOptions) (features : List String)
    (acc : EmitAcc) (h : buildOutputSet env opts features = some acc) : AccWF acc := by
  unfold buildOutputSet at h
  cases h1 : calcDataRoot env opts with
  | none => simp only [h1] at h; exact Option.noConfusion h
  | some dataRoot =>
    simp only [h1] at h
    cases h2 : opts.locales.foldlM
        (fun a loc => features.foldlM (featureStep env dataRoot opts.locales loc) a)
        (initAcc env opts.locales) with
    | none => simp only [h2] at h; exact Option.noConfusion h
    | some acc1 =>
      simp only [h2] at h
      have hwf1 : AccWF acc1 := by
        refine foldlM_inv _ AccWF (fun a loc a2 hx ha => ?_) _ _ acc1 h2 ⟨by simp [initAcc, keysA], by simp [initAcc]⟩
        exact foldlM_inv _ AccWF
          (fun b f b2 hf hb => accWF_featureStep env dataRoot opts.locales loc b f b2 hf hb)
          _ _ a2 hx ha
      cases h3 : processCharsets env dataRoot acc1 with
      | none => simp only [h3] at h; exact Option.noConfusion h
      | some acc2 =>
        simp only [h3] at h
        injection h with h
        exact h ▸ accWF_processNorms env dataRoot acc2
          (accWF_processCharsets env dataRoot acc1 acc2 h3 hwf1)

theorem filter_key_nil {α : Type} (t : List (String × α)) (feat : String)
    (h : feat ∉ t.map Prod.fst) : t.filter (fun e => e.1 = feat) = [] := by
  induction t with
  | nil => rfl
  | cons hd r ih =>
    obtain ⟨k, v⟩ := hd
    simp only [List.map_cons, List.mem_cons, not_or] at h
    rw [List.filter_cons_of_neg (by simp [Ne.symm h.1])]
    exact ih h.2

theorem filter_key_le_one {α : Type} (b : List (String × α)) (feat : String)
    (h : (keysA b).Nodup) : (b.filter (fun e => e.1 = feat)).length ≤ 1 := by
  induction b with
  | nil => simp
  | cons hd t ih =>
    obtain ⟨k, v⟩ := hd
    simp only [keysA, List.map_cons, List.nodup_cons] at h
    by_cases hk : k = feat
    · subst hk
      rw [List.filter_cons_of_pos (by simp), filter_key_nil t k h.1]
      simp
    · rw [List.filter_cons_of_neg (by simp [hk])]
      exact ih h.2

/-- Claim C5 (confirmed): in any completed pass, partition keys are unique
and, within every partition bucket, at most one assignment entry exists for
any feature key — even when several requested locales resolve to the same
partition for that feature, so the emitted bundle holds at most one
assignment line per (partition, feature) pair. -/
theorem emission_dedup (env : Env) (opts : EmitOptions) (features : List String)
    (acc : EmitAcc) (h : buildOutputSet env opts features = some acc) :
    (keysA acc.outputSet).Nodup ∧
    ∀ p bucket feat, (p, bucket) ∈ acc.outputSet →
      (bucket.filter (fun e => e.1 = feat)).length ≤ 1 := by
  have hwf := accWF_buildOutputSet env opts features acc h
  exact ⟨hwf.1, fun p bucket feat hm => filter_key_le_one bucket feat (hwf.2 (p, bucket) hm)⟩

def enUS : ILocale := { language := "en", script := none, region := some "US" }

/-- An environment where only `en/plurals.json` exists, and two locales
(`en` and `en-US`) share the `en` partition. -/
def envC5 : Env :=
  { fs := { existsSync := fun p => p = "/i/locale/en/plurals.json",
            readFileSync := fun p =>
              if p = "/i/locale/en/plurals.json" then some "P" else none,
            readdirSync := fun _ => none },
    cwd := "/w", likelyScript := fun _ => none, lang2charset := fun _ => none,
    parseCharsetOptional := fun _ => none, parseZonetab := fun _ => none,
    findIlibRoot := none }

def optsC5 : EmitOptions :=
  { locales := [locEn, enUS], ilibRoot := some "/i", compilation := none,
    tempDir := some "/t", debug := false }

def accC5 : EmitAcc := (buildOutputSet envC5 optsC5 ["plurals"]).getD accBlank

set_option maxHeartbeats 2000000 in
/-- Witness for C5: with locales `en` and `en-US` sharing the `en` partition,
the pass produces exactly one `plurals` assignment in the `en` bucket. -/
theorem emission_dedup_witness :
    getA accC5.outputSet "en" = some [("plurals", "ilib.data.plurals_en = P;\n")] ∧
    (([("plurals", "ilib.data.plurals_en = P;\n")] : List (String × String)).filter
      (fun e => e.1 = "plurals")).length ≤ 1 :=
  ⟨rfl,
   (emission_dedup envC5 optsC5 ["plurals"] accC5 rfl).2 "en"
     [("plurals", "ilib.data.plurals_en = P;\n")] "plurals"
     (getA_mem accC5.outputSet "en" _ rfl)⟩

/-! Claim C6: optional charsets and automatic charmap emission.  String
disequality facts for the root-bucket keys the charset block writes. -/

theorem getq_append_lt {α : Type} (l1 l2 : List α) (n : Nat) (h : n < l1.length) :
    (l1 ++ l2).get? n = l1.get? n := by
  induction l1 generalizing n with
  | nil => simp at h
  | cons a t ih =>
    cases n with
    | zero => rfl
    | succ m => exact ih m (Nat.lt_of_succ_lt_succ h)

theorem charsetPre_ne_aliases (s : String) : "charset_" ++ s ≠ "charsetaliases" := by
  intro h
  have h2 := congrArg (fun t : String => t.data.get? 7) h
  simp only [string_data_append] at h2
  rw [getq_append_lt _ _ 7 (by decide)] at h2
  exact absurd h2 (by decide)

theorem charmapsPre_ne_aliases (s : String) : "charmaps_" ++ s ≠ "charsetaliases" := by
  intro h
  have h2 := congrArg (fun t : String => t.data.get? 4) h
  simp only [string_data_append] at h2
  rw [getq_append_lt _ _ 4 (by decide)] at h2
  exact absurd h2 (by decide)

theorem charsetPre_ne_charmapsPre (s t : String) : "charset_" ++ s ≠ "charmaps_" ++ t := by
  intro h
  have h2 := congrArg (fun x : String => x.data.get? 4) h
  simp only [string_data_append] at h2
  rw [getq_append_lt _ _ 4 (by decide), getq_append_lt _ _ 4 (by decide)] at h2
  exact absurd h2 (by decide)

theorem stringAppend_right_inj (p s t : String) (h : p ++ s = p ++ t) : s = t := by
  have h2 : p.data ++ s.data = p.data ++ t.data := by
    have h3 := congrArg String.data h
    simpa only [string_data_append] using h3
  have h4 : s.data = t.data := List.append_cancel_left h2
  cases s
  cases t
  exact congrArg String.mk h4

theorem string_append_ne_empty (x y : String) (hy : y.data ≠ []) : x ++ y ≠ "" := by
  intro h
  have h2 := congrArg String.data h
  rw [string_data_append] at h2
  exact hy (List.append_eq_nil.mp h2).2

theorem entryTruthy_of_getEntry (a : EmitAcc) (p k s : String)
    (h : getEntry a p k = some s) (hs : s ≠ "") : entryTruthy a p k = true := by
  unfold entryTruthy
  rw [h]
  exact decide_eq_true hs

theorem charsets_setEntry (acc : EmitAcc) (p k v : String) :
    (setEntry acc p k v).charsets = acc.charsets := rfl

theorem charsets_addManifest (acc : EmitAcc) (f : String) :
    (addManifest acc f).charsets = acc.charsets := rfl

theorem charsets_ensureBucket (acc : EmitAcc) (p : String) :
    (ensureBucket acc p).charsets = acc.charsets := by
  unfold ensureBucket
  by_cases hs : (getA acc.outputSet p).isSome
  · rw [if_pos hs]
  · rw [if_neg hs]

theorem normalizations_setEntry (acc : EmitAcc) (p k v : String) :
    (setEntry acc p k v).normalizations = acc.normalizations := rfl

theorem normalizations_addManifest (acc : EmitAcc) (f : String) :
    (addManifest acc f).normalizations = acc.normalizations := rfl

theorem normalizations_ensureBucket (acc : EmitAcc) (p : String) :
    (ensureBucket acc p).normalizations = acc.normalizations := by
  unfold ensureBucket
  by_cases hs : (getA acc.outputSet p).isSome
  · rw [if_pos hs]
  · rw [if_neg hs]

theorem charmaps_ensureBucket (acc : EmitAcc) (p : String) :
    (ensureBucket acc p).charmaps = acc.charmaps := by
  unfold ensureBucket
  by_cases hs : (getA acc.outputSet p).isSome
  · rw [if_pos hs]
  · rw [if_neg hs]

theorem aliasStep_facts (env : Env) (dataRoot : String) (a a1 : EmitAcc)
    (h : aliasStep env dataRoot a = some a1) :
    (∀ k, k ≠ "charsetaliases" → getEntry a1 "root" k = getEntry a "root" k) ∧
    a1.charsets = a.charsets ∧ a1.charmaps = a.charmaps := by
  unfold aliasStep at h
  dsimp only at h
  split at h
  · cases hr : env.fs.readFileSync (pjoin dataRoot "charsetaliases.json") with
    | none => simp only [hr] at h; exact Option.noConfusion h
    | some d =>
      simp only [hr] at h
      injection h with h
      subst h
      exact ⟨fun k hk => getEntry_setEntry_ne_key a "root" "charsetaliases" _ "root" k hk,
        rfl, rfl⟩
  · injection h with h
    subst h
    exact ⟨fun k _ => rfl, rfl, rfl⟩

theorem charsetStep_skip (env : Env) (dataRoot : String) (st : EmitAcc × List String)
    (x : String) (ht : entryTruthy st.1 "root" ("charset_" ++ x) = true) :
    charsetStep env dataRoot st x = some st := by
  unfold charsetStep
  rw [if_neg]
  intro hc
  rw [ht] at hc
  simp at hc

theorem charsetStep_facts (env : Env) (dataRoot : String) (st : EmitAcc × List String)
    (x : String) (st' : EmitAcc × List String) (h : charsetStep env dataRoot st x = some st') :
    (∀ k, k ≠ "charset_" ++ x → getEntry st'.1 "root" k = getEntry st.1 "root" k) ∧
    (∀ y, y ∈ st.2 → y ∈ st'.2) ∧ st'.1.charmaps = st.1.charmaps := by
  unfold charsetStep at h
  dsimp only at h
  split at h
  · cases hr : env.fs.readFileSync (pjoin (pjoin dataRoot "charset") (x ++ ".json")) with
    | none => simp only [hr] at h; exact Option.noConfusion h
    | some d =>
      simp only [hr] at h
      cases hb : env.parseCharsetOptional d with
      | none => simp only [hb] at h; exact Option.noConfusion h
      | some b =>
        simp only [hb] at h
        injection h with h
        subst h
        refine ⟨fun k hk => getEntry_setEntry_ne_key st.1 "root" _ _ "root" k hk, fun y hy => ?_, rfl⟩
        dsimp only
        split
        · exact (mem_insertUniq st.2 x y).mpr (Or.inl hy)
        · exact hy
  · injection h with h
    subst h
    exact ⟨fun k _ => rfl, fun y hy => hy, rfl⟩

theorem charsetStep_processes (env : Env) (dataRoot : String) (st : EmitAcc × List String)
    (cs d0 : String) (st' : EmitAcc × List String)
    (h : charsetStep env dataRoot st cs = some st')
    (hf : entryTruthy st.1 "root" ("charset_" ++ cs) = false)
    (hex : env.fs.existsSync (pjoin (pjoin dataRoot "charset") (cs ++ ".json")) = true)
    (hrd : env.fs.readFileSync (pjoin (pjoin dataRoot "charset") (cs ++ ".json")) = some d0)
    (hopt : env.parseCharsetOptional d0 = some true) :
    entryTruthy st'.1 "root" ("charset_" ++ cs) = true ∧ cs ∈ st'.2 := by
  unfold charsetStep at h
  dsimp only at h
  rw [if_pos (by rw [hf, hex]; rfl)] at h
  simp only [hrd, hopt] at h
  injection h with h
  subst h
  constructor
  · refine entryTruthy_of_getEntry _ "root" _ _ (getEntry_setEntry_self st.1 "root" _ _) ?_
    exact string_append_ne_empty _ ";\n" (by decide)
  · dsimp only
    rw [if_pos trivial]
    exact (mem_insertUniq st.2 cs cs).mpr (Or.inr rfl)

theorem charmapStep_facts (env : Env) (dataRoot : String) (opt : List String) (a : EmitAcc)
    (y : String) (a1 : EmitAcc) (h : charmapStep env dataRoot opt a y = some a1) :
    ∀ k, k ≠ "charmaps_" ++ y → getEntry a1 "root" k = getEntry a "root" k := by
  unfold charmapStep at h
  dsimp only at h
  split at h
  · cases hr : env.fs.readFileSync (pjoin (pjoin dataRoot "charmaps") (y ++ ".json")) with
    | none => simp only [hr] at h; exact Option.noConfusion h
    | some d =>
      simp only [hr] at h
      injection h with h
      subst h
      exact fun k hk => getEntry_setEntry_ne_key a "root" _ _ "root" k hk
  · injection h with h
    subst h
    exact fun k _ => rfl

theorem charmapStep_skip_optional (env : Env) (dataRoot : String) (opt : List String)
    (a : EmitAcc) (cs : String) (hmem : cs ∈ opt) :
    charmapStep env dataRoot opt a cs = some a := by
  unfold charmapStep
  rw [if_neg]
  intro hc
  have hch : opt.contains cs = true := List.elem_eq_true_of_mem hmem
  rw [hch] at hc
  simp at hc

theorem charsetFold_optional (env : Env) (dataRoot : String) (cs d0 : String)
    (hex : env.fs.existsSync (pjoin (pjoin dataRoot "charset") (cs ++ ".json")) = true)
    (hrd : env.fs.readFileSync (pjoin (pjoin dataRoot "charset") (cs ++ ".json")) = some d0)
    (hopt : env.parseCharsetOptional d0 = some true)
    (l : List String) :
    ∀ (st0 st : EmitAcc × List String),
      l.foldlM (charsetStep env dataRoot) st0 = some st →
      entryTruthy st0.1 "root" ("charmaps_" ++ cs) = false →
      ((cs ∈ l ∧ entryTruthy st0.1 "root" ("charset_" ++ cs) = false) ∨
        (entryTruthy st0.1 "root" ("charset_" ++ cs) = true ∧ cs ∈ st0.2)) →
      entryTruthy st.1 "root" ("charset_" ++ cs) = true ∧ cs ∈ st.2 ∧
        entryTruthy st.1 "root" ("charmaps_" ++ cs) = false := by
  induction l with
  | nil =>
    intro st0 st hfold hcm hd
    simp only [List.foldlM_nil] at hfold
    injection hfold with hfold
    subst hfold
    rcases hd with ⟨hmem, _⟩ | ⟨h1, h2⟩
    · exact absurd hmem (by simp)
    · exact ⟨h1, h2, hcm⟩
  | cons x t ih =>
    intro st0 st hfold hcm hd
    rw [List.foldlM_cons] at hfold
    cases hstep : charsetStep env dataRoot st0 x with
    | none => rw [hstep] at hfold; exact absurd hfold (by simp)
    | some st1 =>
      rw [hstep] at hfold
      obtain ⟨hframe, hmono, _⟩ := charsetStep_facts env dataRoot st0 x st1 hstep
      have hcm1 : entryTruthy st1.1 "root" ("charmaps_" ++ cs) = false := by
        rw [entryTruthy_eq_of_getEntry_eq st1.1 st0.1 _ _
          (hframe _ (fun he => charsetPre_ne_charmapsPre x cs he.symm))]
        exact hcm
      rcases hd with ⟨hmem, hfalse⟩ | ⟨htrue, hin⟩
      · by_cases hx : x = cs
        · subst hx
          obtain ⟨ht1, hin1⟩ :=
            charsetStep_processes env dataRoot st0 x d0 st1 hstep hfalse hex hrd hopt
          exact ih st1 st hfold hcm1 (Or.inr ⟨ht1, hin1⟩)
        · have hfalse1 : entryTruthy st1.1 "root" ("charset_" ++ cs) = false := by
            rw [entryTruthy_eq_of_getEntry_eq st1.1 st0.1 _ _
              (hframe _ (fun he => hx (stringAppend_right_inj "charset_" cs x he).symm))]
            exact hfalse
          have hmem1 : cs ∈ t := by
            rcases List.mem_cons.mp hmem with h | h
            · exact absurd h.symm hx
            · exact h
          exact ih st1 st hfold hcm1 (Or.inl ⟨hmem1, hfalse1⟩)
      · have hst1 : entryTruthy st1.1 "root" ("charset_" ++ cs) = true ∧ cs ∈ st1.2 := by
          by_cases hx : x = cs
          · subst hx
            have hskip := charsetStep_skip env dataRoot st0 x htrue
            rw [hskip] at hstep
            injection hstep with hstep
            subst hstep
            exact ⟨htrue, hin⟩
          · constructor
            · rw [entryTruthy_eq_of_getEntry_eq st1.1 st0.1 _ _
                (hframe _ (fun he => hx (stringAppend_right_inj "charset_" cs x he).symm))]
              exact htrue
            · exact hmono cs hin
        exact ih st1 st hfold hcm1 (Or.inr hst1)

/-- Claim C6, amended: for a charset collected for emission whose fragment is
actually read during the charset pass (the root bucket holds no truthy
`charset_<name>` entry beforehand — in particular no generic feature of that
exact name pre-seeded it) and parses with `optional: true`, the completed
charset block emits the charset fragment itself but never a `charmaps_<name>`
assignment. -/
theorem optional_charset_excluded (env : Env) (dataRoot : String) (acc : EmitAcc)
    (cs d0 : String) (a' : EmitAcc)
    (hmem : cs ∈ acc.charsets)
    (hcsf : entryTruthy acc "root" ("charset_" ++ cs) = false)
    (hcmf : entryTruthy acc "root" ("charmaps_" ++ cs) = false)
    (hex : env.fs.existsSync (pjoin (pjoin dataRoot "charset") (cs ++ ".json")) = true)
    (hrd : env.fs.readFileSync (pjoin (pjoin dataRoot "charset") (cs ++ ".json")) = some d0)
    (hopt : env.parseCharsetOptional d0 = some true)
    (hp : processCharsets env dataRoot acc = some a') :
    entryTruthy a' "root" ("charmaps_" ++ cs) = false ∧
    entryTruthy a' "root" ("charset_" ++ cs) = true := by
  unfold processCharsets at hp
  have hne : ¬ acc.charsets.isEmpty = true := by
    intro hie
    cases hc : acc.charsets with
    | nil => rw [hc] at hmem; simp at hmem
    | cons a b => rw [hc] at hie; simp at hie
  rw [if_neg hne] at hp
  cases h1 : aliasStep env dataRoot (ensureBucket acc "root") with
  | none => simp only [h1] at hp; exact Option.noConfusion hp
  | some acc1 =>
    simp only [h1] at hp
    obtain ⟨halias, hcs1, _⟩ := aliasStep_facts env dataRoot _ acc1 h1
    have e0 : ∀ k, k ≠ "charsetaliases" → getEntry acc1 "root" k = getEntry acc "root" k :=
      fun k hk => (halias k hk).trans (getEntry_ensureBucket acc "root" "root" k)
    have hch : acc1.charsets = acc.charsets := hcs1.trans (charsets_ensureBucket acc "root")
    have hfc : entryTruthy acc1 "root" ("charset_" ++ cs) = false := by
      rw [entryTruthy_eq_of_getEntry_eq _ _ _ _ (e0 _ (charsetPre_ne_aliases cs))]
      exact hcsf
    have hfm : entryTruthy acc1 "root" ("charmaps_" ++ cs) = false := by
      rw [entryTruthy_eq_of_getEntry_eq _ _ _ _ (e0 _ (charmapsPre_ne_aliases cs))]
      exact hcmf
    cases h2 : acc1.charsets.foldlM (charsetStep env dataRoot) (acc1, []) with
    | none => simp only [h2] at hp; exact Option.noConfusion hp
    | some st =>
      simp only [h2] at hp
      have hres := charsetFold_optional env dataRoot cs d0 hex hrd hopt acc1.charsets
        (acc1, []) st h2 hfm (Or.inl ⟨by rw [hch]; exact hmem, hfc⟩)
      have hfin := foldlM_inv
        (fun a pr => pr.2.foldlM (charmapStep env dataRoot st.2) a)
        (fun a => entryTruthy a "root" ("charmaps_" ++ cs) = false ∧
          entryTruthy a "root" ("charset_" ++ cs) = true)
        (fun a pr a2 hx ha => by
          refine foldlM_inv (charmapStep env dataRoot st.2)
            (fun b => entryTruthy b "root" ("charmaps_" ++ cs) = false ∧
              entryTruthy b "root" ("charset_" ++ cs) = true)
            (fun b y b2 hy hb => ?_) pr.2 a a2 hx ha
          by_cases hcy : y = cs
          · subst hcy
            have hskip := charmapStep_skip_optional env dataRoot st.2 b y hres.2.1
            rw [hskip] at hy
            injection hy with hy
            subst hy
            exact hb
          · have hfr := charmapStep_facts env dataRoot st.2 b y b2 hy
            constructor
            · rw [entryTruthy_eq_of_getEntry_eq b2 b _ _
                (hfr _ (fun he => hcy (stringAppend_right_inj "charmaps_" cs y he).symm))]
              exact hb.1
            · rw [entryTruthy_eq_of_getEntry_eq b2 b _ _
                (hfr _ (fun he => charsetPre_ne_charmapsPre cs y he))]
              exact hb.2)
        st.1.charmaps st.1 a' hp ⟨hres.2.2, hres.1⟩
      exact hfin

/-- An environment where language `en` resolves to charset `foo`, the charset
fragment `charset/foo.json` carries `optional: true`, a charmap fragment
exists — and a root-level file `charset_foo.json` also exists, reachable by a
generic feature of that exact name. -/
def envC6 : Env :=
  { fs := { existsSync := fun p =>
              p = "/i/locale/charset_foo.json" || p = "/i/locale/charset/foo.json" ||
                p = "/i/locale/charmaps/foo.json",
            readFileSync := fun p =>
              if p = "/i/locale/charset_foo.json" then some "CSROOT"
              else if p = "/i/locale/charset/foo.json" then some "CSFOO"
              else if p = "/i/locale/charmaps/foo.json" then some "CMFOO"
              else none,
            readdirSync := fun _ => none },
    cwd := "/w", likelyScript := fun _ => none,
    lang2charset := fun s => if s = "en" then some ["foo"] else none,
    parseCharsetOptional := fun d => if d = "CSFOO" then some true else some false,
    parseZonetab := fun _ => none, findIlibRoot := none }

/-- Counterexample to claim C6 as stated: the charset fragment of `foo`
carries `optional: true`, `charmaps` was requested for a locale resolving to
`foo` — and yet a `charmaps_foo` assignment appears in the root bundle,
because a generic feature named `charset_foo` pre-seeded the root bucket key
`charset_foo`, so the charset pass never read the fragment and never learned
it was optional (and the charset fragment itself was not emitted: the entry
holds the generic file's payload instead). -/
theorem optional_charset_excluded_cex :
    envC6.parseCharsetOptional "CSFOO" = some true ∧
    envC6.fs.readFileSync "/i/locale/charset/foo.json" = some "CSFOO" ∧
    (buildOutputSet envC6 optsMin ["charmaps", "charset_foo"]).map
        (fun a => (getEntry a "root" "charmaps_foo", getEntry a "root" "charset_foo")) =
      some (some "ilib.data.charmaps_foo = CMFOO;\n", some "ilib.data.charset_foo = CSROOT;\n") :=
  ⟨rfl, rfl, rfl⟩

def accC6 : EmitAcc :=
  { scripts := [], normalizations := [], charsets := ["foo"],
    charmaps := [("en", ["foo"])], outputSet := [], manifest := [] }

def accC6res : EmitAcc := (processCharsets envC6 "/i/locale" accC6).getD accBlank

/-- Witness for the amended C6: when the charset pass itself reads the
optional fragment, the charmap assignment is suppressed and the charset
fragment is emitted. -/
theorem optional_charset_excluded_witness :
    entryTruthy accC6res "root" "charmaps_foo" = false ∧
    entryTruthy accC6res "root" "charset_foo" = true :=
  optional_charset_excluded envC6 "/i/locale" accC6 "foo" "CSFOO" accC6res
    (by decide) rfl rfl rfl rfl rfl rfl

/-! Claim C7: zoneinfo completeness for locale en-US. -/

theorem getEntry_isSome_setEntry (a : EmitAcc) (p k v p' k' : String)
    (h : (getEntry a p' k').isSome = true) :
    (getEntry (setEntry a p k v) p' k').isSome = true := by
  by_cases hp : p' = p
  · subst hp
    by_cases hk : k' = k
    · subst hk
      rw [getEntry_setEntry_self]
      rfl
    · rw [getEntry_setEntry_ne_key a p' k v p' k' hk]
      exact h
  · rw [getEntry_setEntry_ne_part a p k v p' k' hp]
    exact h

theorem zoneStep_frame_nonroot (env : Env) (dataRoot : String) (a : EmitAcc) (z p : String)
    (hp : p ≠ "root") :
    getA (zoneStep env dataRoot a z).outputSet p = getA a.outputSet p := by
  unfold zoneStep
  dsimp only
  split
  · split
    · rfl
    · exact outputSet_setEntry_ne a "root" _ _ p hp
  · rfl

theorem zoneStep_pres (env : Env) (dataRoot : String) (a : EmitAcc) (z k : String)
    (h : (getEntry a "root" k).isSome = true) :
    (getEntry (zoneStep env dataRoot a z) "root" k).isSome = true := by
  unfold zoneStep
  dsimp only
  split
  · split
    · exact h
    · exact getEntry_isSome_setEntry a "root" _ _ "root" k h
  · exact h

theorem zoneStep_sets (env : Env) (dataRoot : String) (a : EmitAcc) (z : String)
    (hex : env.fs.existsSync (pjoin (pjoin dataRoot "zoneinfo") (z ++ ".json")) = true)
    (hrd : (env.fs.readFileSync (pjoin (pjoin dataRoot "zoneinfo") (z ++ ".json"))).isSome = true) :
    (getEntry (zoneStep env dataRoot a z) "root" z).isSome = true := by
  unfold zoneStep
  rw [if_pos hex]
  cases hr : env.fs.readFileSync (pjoin (pjoin dataRoot "zoneinfo") (z ++ ".json")) with
  | none => rw [hr] at hrd; exact absurd hrd (by simp)
  | some d =>
    have : (getEntry (setEntry a "root" z
        ("ilib.data.zoneinfo[\"" ++ zoneKeyFix z ++ "\"] = " ++ d ++ ";\n")) "root" z).isSome =
        true := by
      rw [getEntry_setEntry_self]
      rfl
    simp only [hr]
    exact this

theorem foldl_zoneStep_frame (env : Env) (dataRoot : String) (l : List String) (a : EmitAcc)
    (p : String) (hp : p ≠ "root") :
    getA (l.foldl (zoneStep env dataRoot) a).outputSet p = getA a.outputSet p := by
  induction l generalizing a with
  | nil => rfl
  | cons z t ih =>
    rw [List.foldl_cons, ih (zoneStep env dataRoot a z),
      zoneStep_frame_nonroot env dataRoot a z p hp]

theorem foldl_zoneStep_pres (env : Env) (dataRoot : String) (l : List String) (a : EmitAcc)
    (k : String) (h : (getEntry a "root" k).isSome = true) :
    (getEntry (l.foldl (zoneStep env dataRoot) a) "root" k).isSome = true :=
  foldl_inv _ (fun x => (getEntry x "root" k).isSome = true)
    (fun x z hx => zoneStep_pres env dataRoot x z k hx) l a h

theorem foldl_zoneStep_mem (env : Env) (dataRoot : String) (l : List String) (a : EmitAcc)
    (z : String) (hmem : z ∈ l)
    (hex : env.fs.existsSync (pjoin (pjoin dataRoot "zoneinfo") (z ++ ".json")) = true)
    (hrd : (env.fs.readFileSync (pjoin (pjoin dataRoot "zoneinfo") (z ++ ".json"))).isSome = true) :
    (getEntry (l.foldl (zoneStep env dataRoot) a) "root" z).isSome = true := by
  induction l generalizing a with
  | nil => exact absurd hmem (by simp)
  | cons w t ih =>
    rw [List.foldl_cons]
    rcases List.mem_cons.mp hmem with rfl | hmem'
    · exact foldl_zoneStep_pres env dataRoot t _ z (zoneStep_sets env dataRoot a z hex hrd)
    · exact ih (zoneStep env dataRoot a w) hmem'

theorem genericZoneStep_some (env : Env) (dataRoot : String) (a : EmitAcc) (f : String)
    (hrd : (env.fs.readFileSync (pjoin (pjoin dataRoot "zoneinfo") f)).isSome = true) :
    genericZoneStep env dataRoot a f =
      some (addManifest
        (setEntry a "root" (basenameNoJson f)
          ("ilib.data.zoneinfo[\"" ++ zoneKeyFix (basenameNoJson f) ++ "\"] = " ++
            ((env.fs.readFileSync (pjoin (pjoin dataRoot "zoneinfo") f)).getD "") ++ ";\n"))
        (pjoin "zoneinfo" f)) := by
  unfold genericZoneStep
  cases hr : env.fs.readFileSync (pjoin (pjoin dataRoot "zoneinfo") f) with
  | none => rw [hr] at hrd; exact absurd hrd (by simp)
  | some d => rfl

theorem gzfold_some (env : Env) (dataRoot : String) (files : List String) (a : EmitAcc)
    (hr : ∀ f ∈ files, (env.fs.readFileSync (pjoin (pjoin dataRoot "zoneinfo") f)).isSome = true) :
    ∃ a', files.foldlM (genericZoneStep env dataRoot) a = some a' := by
  induction files generalizing a with
  | nil => exact ⟨a, rfl⟩
  | cons f t ih =>
    cases hstep : genericZoneStep env dataRoot a f with
    | none =>
      rw [genericZoneStep_some env dataRoot a f (hr f (List.mem_cons_self _ _))] at hstep
      exact Option.noConfusion hstep
    | some a1 =>
      obtain ⟨a', ha'⟩ := ih a1 (fun g hg => hr g (List.mem_cons_of_mem _ hg))
      exact ⟨a', by rw [List.foldlM_cons, hstep]; exact ha'⟩

theorem gzfold_pres (env : Env) (dataRoot : String) (files : List String) (a a' : EmitAcc)
    (hfold : files.foldlM (genericZoneStep env dataRoot) a = some a') (k : String)
    (h : (getEntry a "root" k).isSome = true) :
    (getEntry a' "root" k).isSome = true := by
  refine foldlM_inv _ (fun x => (getEntry x "root" k).isSome = true)
    (fun x f x2 hx hxx => ?_) files a a' hfold h
  unfold genericZoneStep at hx
  cases hr : env.fs.readFileSync (pjoin (pjoin dataRoot "zoneinfo") f) with
  | none => rw [hr] at hx; exact Option.noConfusion hx
  | some d =>
    simp only [hr] at hx
    injection hx with hx
    subst hx
    exact getEntry_isSome_setEntry x "root" _ _ "root" k hxx

theorem gzfold_frame (env : Env) (dataRoot : String) (files : List String) (a a' : EmitAcc)
    (hfold : files.foldlM (genericZoneStep env dataRoot) a = some a') (p : String)
    (hp : p ≠ "root") : getA a'.outputSet p = getA a.outputSet p := by
  induction files generalizing a with
  | nil =>
    simp only [List.foldlM_nil] at hfold
    injection hfold with hfold
    subst hfold
    rfl
  | cons f t ih =>
    rw [List.foldlM_cons] at hfold
    cases hstep : genericZoneStep env dataRoot a f with
    | none => rw [hstep] at hfold; exact absurd hfold (by simp)
    | some a1 =>
      rw [hstep] at hfold
      unfold genericZoneStep at hstep
      cases hr : env.fs.readFileSync (pjoin (pjoin dataRoot "zoneinfo") f) with
      | none => rw [hr] at hstep; exact Option.noConfusion hstep
      | some d =>
        simp only [hr] at hstep
        injection hstep with hstep
        rw [ih a1 hfold, ← hstep]
        exact outputSet_setEntry_ne a "root" _ _ p hp

theorem gzfold_mem (env : Env) (dataRoot : String) (files : List String) (a a' : EmitAcc)
    (hfold : files.foldlM (genericZoneStep env dataRoot) a = some a') (f : String)
    (hmem : f ∈ files) : (getEntry a' "root" (basenameNoJson f)).isSome = true := by
  induction files generalizing a with
  | nil => exact absurd hmem (by simp)
  | cons g t ih =>
    rw [List.foldlM_cons] at hfold
    cases hstep : genericZoneStep env dataRoot a g with
    | none => rw [hstep] at hfold; exact absurd hfold (by simp)
    | some a1 =>
      rw [hstep] at hfold
      rcases List.mem_cons.mp hmem with rfl | hmem'
      · unfold genericZoneStep at hstep
        cases hr : env.fs.readFileSync (pjoin (pjoin dataRoot "zoneinfo") f) with
        | none => rw [hr] at hstep; exact Option.noConfusion hstep
        | some d =>
          simp only [hr] at hstep
          injection hstep with hstep
          refine gzfold_pres env dataRoot t a1 a' hfold _ ?_
          rw [← hstep]
          have : (getEntry (setEntry a "root" (basenameNoJson f)
              ("ilib.data.zoneinfo[\"" ++ zoneKeyFix (basenameNoJson f) ++ "\"] = " ++ d ++
                ";\n")) "root" (basenameNoJson f)).isSome = true := by
            rw [getEntry_setEntry_self]
            rfl
          exact this
      · exact ih a1 hfold hmem'

theorem featureStep_zoneinfo (env : Env) (dataRoot : String) (locales : List ILocale)
    (loc : ILocale) (acc : EmitAcc) :
    featureStep env dataRoot locales loc acc "zoneinfo" =
      processZoneinfo env dataRoot locales acc := by
  unfold featureStep
  rw [if_neg (by decide)]
  have hn : normMatch "zoneinfo" = none := rfl
  simp only [hn]
  rw [if_pos trivial]

theorem charsets_zoneStep (env : Env) (dataRoot : String) (a : EmitAcc) (z : String) :
    (zoneStep env dataRoot a z).charsets = a.charsets := by
  unfold zoneStep
  dsimp only
  split
  · split <;> rfl
  · rfl

theorem normalizations_zoneStep (env : Env) (dataRoot : String) (a : EmitAcc) (z : String) :
    (zoneStep env dataRoot a z).normalizations = a.normalizations := by
  unfold zoneStep
  dsimp only
  split
  · split <;> rfl
  · rfl

theorem processZoneinfo_fields (env : Env) (dataRoot : String) (locales : List ILocale)
    (acc a' : EmitAcc) (hp : processZoneinfo env dataRoot locales acc = some a') :
    a'.charsets = acc.charsets ∧ a'.normalizations = acc.normalizations := by
  unfold processZoneinfo at hp
  cases h1 : env.fs.readFileSync (pjoin dataRoot "zoneinfo/zonetab.json") with
  | none => simp only [h1] at hp; exact Option.noConfusion hp
  | some d =>
    simp only [h1] at hp
    cases h2 : env.parseZonetab d with
    | none => simp only [h2] at hp; exact Option.noConfusion hp
    | some zonetab =>
      simp only [h2] at hp
      cases h3 : env.fs.readdirSync (pjoin dataRoot "zoneinfo") with
      | none => simp only [h3] at hp; exact Option.noConfusion hp
      | some l1 =>
        simp only [h3] at hp
        cases h4 : env.fs.readdirSync (pjoin (pjoin dataRoot "zoneinfo") "Etc") with
        | none => simp only [h4] at hp; exact Option.noConfusion hp
        | some l2 =>
          simp only [h4] at hp
          refine foldlM_inv _
            (fun x : EmitAcc => x.charsets = acc.charsets ∧ x.normalizations = acc.normalizations)
            (fun x f x2 hx hxx => ?_) _ _ a' hp ?_
          · unfold genericZoneStep at hx
            cases hr : env.fs.readFileSync (pjoin (pjoin dataRoot "zoneinfo") f) with
            | none => rw [hr] at hx; exact Option.noConfusion hx
            | some dd =>
              simp only [hr] at hx
              injection hx with hx
              subst hx
              exact hxx
          · unfold zoneinfoAfterRegions
            refine foldl_inv _
              (fun x : EmitAcc => x.charsets = acc.charsets ∧ x.normalizations = acc.normalizations)
              (fun x z hxx => ?_) _ _ ?_
            · dsimp only
              rw [charsets_zoneStep, normalizations_zoneStep]
              exact hxx
            · dsimp only
              constructor
              · rw [charsets_addManifest, charsets_setEntry, charsets_ensureBucket]
              · rw [normalizations_addManifest, normalizations_setEntry,
                  normalizations_ensureBucket]

/-- Claim C7 (confirmed): with feature set `{zoneinfo}` and locale list
`[en-US]`, whenever the zonetab reads and parses, both directory listings
succeed and every listed generic zone file and every existing region zone
file is readable, the pass completes and its partition map holds: a `zonetab`
entry, an entry for every zone of region `US` whose file exists, and an entry
for the basename of every generic `.json` zone file (the `Etc` subtree
included) — all in the `root` bucket, while every other partition bucket
stays absent. -/
theorem zoneinfo_completeness (env : Env) (opts : EmitOptions) (dr ztxt : String)
    (zt : List (String × List String)) (l1 l2 : List String)
    (hloc : opts.locales = [enUS])
    (hdr : calcDataRoot env opts = some dr)
    (hzt : env.fs.readFileSync (pjoin dr "zoneinfo/zonetab.json") = some ztxt)
    (hpz : env.parseZonetab ztxt = some zt)
    (hl1 : env.fs.readdirSync (pjoin dr "zoneinfo") = some l1)
    (hl2 : env.fs.readdirSync (pjoin (pjoin dr "zoneinfo") "Etc") = some l2)
    (hrz : ∀ z : String, env.fs.existsSync (pjoin (pjoin dr "zoneinfo") (z ++ ".json")) = true →
      (env.fs.readFileSync (pjoin (pjoin dr "zoneinfo") (z ++ ".json"))).isSome = true)
    (hrg : ∀ f ∈ genericZoneFiles l1 l2,
      (env.fs.readFileSync (pjoin (pjoin dr "zoneinfo") f)).isSome = true) :
    ∃ acc, buildOutputSet env opts ["zoneinfo"] = some acc ∧
      (getEntry acc "root" "zonetab").isSome = true ∧
      (∀ zs z, getA zt "US" = some zs → z ∈ zs →
        env.fs.existsSync (pjoin (pjoin dr "zoneinfo") (z ++ ".json")) = true →
        (getEntry acc "root" z).isSome = true) ∧
      (∀ f ∈ genericZoneFiles l1 l2, (getEntry acc "root" (basenameNoJson f)).isSome = true) ∧
      (∀ p, p ≠ "root" → getA acc.outputSet p = none) := by
  obtain ⟨accZ, hgz⟩ := gzfold_some env dr (genericZoneFiles l1 l2)
    (zoneinfoAfterRegions env dr [enUS] (initAcc env [enUS]) ztxt zt) hrg
  have hzp : processZoneinfo env dr [enUS] (initAcc env [enUS]) = some accZ := by
    unfold processZoneinfo
    simp only [hzt, hpz, hl1, hl2]
    exact hgz
  have hmain : opts.locales.foldlM
      (fun a loc => (["zoneinfo"] : List String).foldlM
        (featureStep env dr opts.locales loc) a)
      (initAcc env opts.locales) = some accZ := by
    rw [hloc]
    rw [List.foldlM_cons]
    have hinner : (["zoneinfo"] : List String).foldlM
        (featureStep env dr [enUS] enUS) (initAcc env [enUS]) = some accZ := by
      rw [List.foldlM_cons, featureStep_zoneinfo, hzp]
      rfl
    rw [hinner]
    rfl
  have hfields := processZoneinfo_fields env dr [enUS] _ accZ hzp
  have hcsE : accZ.charsets = [] := hfields.1
  have hnormE : accZ.normalizations = [] := hfields.2
  have hpc : processCharsets env dr accZ = some accZ := by
    unfold processCharsets
    rw [if_pos (by rw [hcsE]; rfl)]
  have hpn : processNorms env dr accZ = accZ := by
    unfold processNorms
    rw [hnormE]
    rfl
  refine ⟨accZ, ?_, ?_, ?_, ?_, ?_⟩
  · unfold buildOutputSet
    simp only [hdr, hmain, hpc, hpn]
  · refine gzfold_pres env dr _ _ _ hgz "zonetab" ?_
    unfold zoneinfoAfterRegions
    refine foldl_zoneStep_pres env dr _ _ "zonetab" ?_
    rw [getEntry_addManifest, getEntry_setEntry_self]
    rfl
  · intro zs z hz hzm hzex
    refine gzfold_pres env dr _ _ _ hgz z ?_
    unfold zoneinfoAfterRegions
    have hzone : zonesOfRegions zt (zoneRegions [enUS]) = zs.foldl insertUniq [] := by
      have hreg : zoneRegions [enUS] = [some "US"] := rfl
      rw [hreg]
      unfold zonesOfRegions
      rw [List.foldl_cons, List.foldl_nil]
      simp only [hz]
    rw [hzone]
    exact foldl_zoneStep_mem env dr _ _ z
      (mem_foldl_insertUniq zs [] z (Or.inr hzm)) hzex (hrz z hzex)
  · intro f hf
    exact gzfold_mem env dr _ _ _ hgz f hf
  · intro p hp
    rw [gzfold_frame env dr _ _ _ hgz p hp]
    unfold zoneinfoAfterRegions
    rw [foldl_zoneStep_frame env dr _ _ p hp]
    have h1 : getA (addManifest (setEntry (ensureBucket (initAcc env [enUS]) "root") "root"
        "zonetab" ("ilib.data.zoneinfo.zonetab = " ++ ztxt ++ ";\n"))
        "zoneinfo/zonetab.json").outputSet p =
        getA (setEntry (ensureBucket (initAcc env [enUS]) "root") "root" "zonetab"
          ("ilib.data.zoneinfo.zonetab = " ++ ztxt ++ ";\n")).outputSet p := rfl
    rw [h1, outputSet_setEntry_ne _ _ _ _ p hp, outputSet_ensureBucket_ne _ _ p hp]
    rfl

def ztC7 : List (String × List String) := [("US", ["America/New_York", "America/Ghost"])]

def l1C7 : List String := ["America", "Etc", "UTC.json", "zonetab.json"]

def l2C7 : List String := ["GMT+1.json"]

/-- An environment with a zonetab mapping region `US` to one existing and one
missing zone, one generic zone file and one `Etc` zone file. -/
def envC7 : Env :=
  { fs := { existsSync := fun p =>
              p = "/i/locale/zoneinfo/America/New_York.json" ||
                p = "/i/locale/zoneinfo/UTC.json" ||
                p = "/i/locale/zoneinfo/Etc/GMT+1.json",
            readFileSync := fun p =>
              if p = "/i/locale/zoneinfo/zonetab.json" then some "ZT"
              else if p = "/i/locale/zoneinfo/America/New_York.json" then some "NY"
              else if p = "/i/locale/zoneinfo/UTC.json" then some "UTCD"
              else if p = "/i/locale/zoneinfo/Etc/GMT+1.json" then some "G1"
              else none,
            readdirSync := fun p =>
              if p = "/i/locale/zoneinfo" then some l1C7
              else if p = "/i/locale/zoneinfo/Etc" then some l2C7
              else none },
    cwd := "/w", likelyScript := fun _ => none, lang2charset := fun _ => none,
    parseCharsetOptional := fun _ => none,
    parseZonetab := fun d => if d = "ZT" then some ztC7 else none,
    findIlibRoot := none }

def optsC7 : EmitOptions :=
  { locales := [enUS], ilibRoot := some "/i", compilation := none,
    tempDir := some "/t", debug := false }

/-- Witness for C7 at the concrete `envC7` filesystem. -/
theorem zoneinfo_completeness_witness :
    ∃ acc, buildOutputSet envC7 optsC7 ["zoneinfo"] = some acc ∧
      (getEntry acc "root" "zonetab").isSome = true ∧
      (∀ zs z, getA ztC7 "US" = some zs → z ∈ zs →
        envC7.fs.existsSync (pjoin (pjoin "/i/locale" "zoneinfo") (z ++ ".json")) = true →
        (getEntry acc "root" z).isSome = true) ∧
      (∀ f ∈ genericZoneFiles l1C7 l2C7, (getEntry acc "root" (basenameNoJson f)).isSome = true) ∧
      (∀ p, p ≠ "root" → getA acc.outputSet p = none) :=
  zoneinfo_completeness envC7 optsC7 "/i/locale" "ZT" ztC7 l1C7 l2C7
    rfl rfl rfl rfl rfl rfl
    (fun z hz => by
      have hz2 : (pjoin (pjoin "/i/locale" "zoneinfo") (z ++ ".json") =
            "/i/locale/zoneinfo/America/New_York.json" ∨
          pjoin (pjoin "/i/locale" "zoneinfo") (z ++ ".json") =
            "/i/locale/zoneinfo/UTC.json") ∨
          pjoin (pjoin "/i/locale" "zoneinfo") (z ++ ".json") =
            "/i/locale/zoneinfo/Etc/GMT+1.json" := by
        simpa [envC7] using hz
      rcases hz2 with (h | h) | h <;> rw [h] <;> rfl)
    (by decide)

/-- Witness for the amended C8: the three guarded sites at concrete failing
reads on `envC8`. -/
theorem guarded_fragment_failures_caught_witness :
    genericStep envC8 "/i/locale" "plurals" accBlank "en" = ensureBucket accBlank "en" ∧
    zoneStep envC8 "/i/locale" accBlank "Ghost" = accBlank ∧
    addFormStep envC8 "/i/locale" accBlank "nfc" "Latn" = accBlank := by
  have h := guarded_fragment_failures_caught envC8 "/i/locale" "plurals" accBlank
    "en" "Ghost" "nfc" "Latn" rfl rfl rfl rfl rfl (by decide) rfl rfl
  exact ⟨h.1, h.2.1, h.2.2⟩

end IlibPlugin
